import Mathlib

/-!
The A6 shift engine (`xpc.c`) and the XVC session loop (`xvcd.c`) of xpcu-xvcd.

A shallow embedding of the C sources and the properties proved about it.

* Byte buffers are `List Nat`; a store to a `uint8_t` cell keeps the value modulo 256.
* The shift engine checks every array access.  A function returns `none` exactly when the
  C code would read or write outside the bytes it was given (undefined behaviour; bytes of a
  buffer that were never written count as not given) or, for the loops that take a fuel
  argument, when the fuel runs out.
* The counters of the shift engine (`in_bits`, `out_bits`, `out_done`, `i`) only count up
  from 0 and are natural numbers.  `out_done` is the one `int` among them that can leave
  the range of `int`, for `len` above `INT_MAX`: `io_scan_int` keeps it in 32 bits, and
  equals `io_scan` for every `len` up to 2^31 (`io_scan_int_eq`).  The frame length of `handle_data` is a C `int`; it is an
  integer with the 32-bit conversions written out.
* The USB cable is an oracle consulted with the whole history of earlier transfers; every
  libusb call is appended, with its outcome, to that history.
* The socket of a session is the list of bytes still to come and the list of `write` calls
  made.  Logging (`printf`, `fprintf`, `perror`) has no effect on the state and is left out.
-/

namespace XpcuXvcd

/-! ## USB transport -/

/-- One libusb transfer together with its outcome.  `control` is
`libusb_control_transfer` without a data stage (`ok` is `ret >= 0`), `bulk_out` and
`bulk_in` are `libusb_bulk_transfer` towards and from the device (`ok` is `ret == 0`,
`reply = none` is a failed read). -/
inductive UsbEvent where
  | control (bmRequestType bRequest wValue wIndex : Nat) (ok : Bool)
  | bulk_out (endpoint : Nat) (data : List Nat) (ok : Bool)
  | bulk_in (endpoint : Nat) (length : Nat) (reply : Option (List Nat))
  deriving DecidableEq

/-- The cable seen from the host: for each kind of transfer, the outcome as a function of
the history of transfers so far and of the arguments of the call. -/
structure Cable where
  control : List UsbEvent → Nat → Nat → Nat → Nat → Bool
  bulk_out : List UsbEvent → Nat → List Nat → Bool
  bulk_in : List UsbEvent → Nat → Nat → Option (List Nat)

/-- Value of `LIBUSB_ENDPOINT_IN` (libusb.h). -/
def LIBUSB_ENDPOINT_IN : Nat := 0x80

/-- Checked read `a[i]`. -/
def rd (a : List Nat) (i : Nat) : Option Nat := a[i]?

/-- Checked store `a[i] = v` into a `uint8_t` array. -/
def wr (a : List Nat) (i : Nat) (v : Nat) : Option (List Nat) :=
  if i < a.length then some (a.set i (v % 256)) else none

/-- Function `xpcu_shift` (xpc.c:215).  `inp` is the memory behind `in`, `out` the memory
behind `out`; the result is the return value, the extended history and the memory behind
`out` after the call. -/
def xpcu_shift (c : Cable) (log : List UsbEvent) (bits : Nat) (inp : List Nat)
    (out_len : Nat) (out : List Nat) : Option (Int × List UsbEvent × List Nat) :=
  let reqno := 0xA6
  let in_len := 2 * ((bits + 3) >>> 2)
  let ok1 := c.control log 0x40 0xB0 reqno bits
  let log1 := log ++ [UsbEvent.control 0x40 0xB0 reqno bits ok1]
  if !ok1 then some (-1, log1, out)
  else if inp.length < in_len then none
  else
    let data := inp.take in_len
    let ok2 := c.bulk_out log1 0x02 data
    let log2 := log1 ++ [UsbEvent.bulk_out 0x02 data ok2]
    if !ok2 then some (-1, log2, out)
    else if out_len > 0 then
      let ep := 0x06 ||| LIBUSB_ENDPOINT_IN
      let r := c.bulk_in log2 ep out_len
      let log3 := log2 ++ [UsbEvent.bulk_in ep out_len r]
      match r with
      | none => some (-1, log3, out)
      | some d =>
        if out.length < out_len then none
        else some (0, log3, d.take out_len ++ out.drop (d.take out_len).length)
    else some (0, log2, out)

/-- Macro `XPC_A6_CHUNKSIZE` (xpc.c:537). -/
def XPC_A6_CHUNKSIZE : Nat := 4

/-- Struct `xpc_ext_transfer_state_t` (xpc.c:539).  The three counters are C `int`s that
only count upwards from 0; `out` is the memory behind the `out` pointer (the caller's TDO
buffer) and `buf` the `2 * XPC_A6_CHUNKSIZE` staging bytes.  The cable handle is the
`Cable` passed alongside.  `in_bits` and `out_bits` are set back to 0 by every burst and
reach at most 15 in `io_scan`; `out_done` counts up to `len`, and the functions with the
suffix `_int` hold it as the 32-bit `int` it is. -/
structure xpc_ext_transfer_state_t where
  in_bits : Nat
  out_bits : Nat
  out_done : Nat
  out : List Nat
  buf : List Nat
  deriving DecidableEq

/-- Inner `while` of `xpcu_do_ext_transfer` (xpc.c:577): consume samples of `rxw` while
`mask <= (1 << 15) && out_rem > 0`.  Returns `out`, `out_done`, `mask`, `out_rem`. -/
def decode_word (rxw : Nat) :
    Nat → List Nat → Nat → Nat → Option (List Nat × Nat × Nat × Nat)
  | 0, out, out_done, mask => some (out, out_done, mask, 0)
  | out_rem + 1, out, out_done, mask =>
    if mask ≤ 1 <<< 15 then do
      let last_tdo := if rxw &&& mask ≠ 0 then 1 else 0
      let out1 ←
        if out_done &&& 7 = 0 then wr out (out_done >>> 3) last_tdo
        else do
          let old ← rd out (out_done >>> 3)
          wr out (out_done >>> 3) (old ||| (last_tdo <<< (out_done &&& 7)))
      decode_word rxw out_rem out1 (out_done + 1) (mask <<< 1)
    else some (out, out_done, mask, out_rem + 1)

/-- Outer `while (out_rem > 0)` of `xpcu_do_ext_transfer` (xpc.c:567).  Every round
consumes at least one sample, so `fuel = out_rem` rounds always suffice. -/
def decode_words (buf : List Nat) :
    Nat → Nat → Nat → List Nat → Nat → Option (List Nat × Nat)
  | fuel, out_idx, out_rem, out, out_done =>
    if out_rem = 0 then some (out, out_done)
    else match fuel with
      | 0 => none
      | fuel + 1 => do
        let lo ← rd buf out_idx
        let hi ← rd buf (out_idx + 1)
        let rxw := (hi <<< 8) ||| lo
        let mask := if out_rem ≥ 16 then 1 else 1 <<< (16 - out_rem)
        let (out1, out_done1, _, out_rem1) ← decode_word rxw out_rem out out_done mask
        decode_words buf fuel (out_idx + 2) out_rem1 out1 out_done1

/-- Function `xpcu_do_ext_transfer` (xpc.c:553). -/
def xpcu_do_ext_transfer (c : Cable) (log : List UsbEvent) (xts : xpc_ext_transfer_state_t) :
    Option (Int × xpc_ext_transfer_state_t × List UsbEvent) := do
  let out_len := 2 * ((xts.out_bits + 15) >>> 4)
  let (r, log1, buf1) ← xpcu_shift c log xts.in_bits xts.buf out_len xts.buf
  if r = 0 then
    let (out1, out_done1) ← decode_words buf1 xts.out_bits 0 xts.out_bits xts.out xts.out_done
    some (r, { in_bits := 0, out_bits := 0, out_done := out_done1, out := out1, buf := buf1 },
      log1)
  else
    some (r, { xts with in_bits := 0, out_bits := 0, buf := buf1 }, log1)

/-- Function `xpcu_add_bit_for_ext_transfer` (xpc.c:601). -/
def xpcu_add_bit_for_ext_transfer (xts : xpc_ext_transfer_state_t) (tdi tms : Nat)
    (is_real : Bool) : Option xpc_ext_transfer_state_t := do
  let bit_idx := xts.in_bits &&& 3
  let buf_idx := (xts.in_bits - bit_idx) >>> 1
  let buf0 ←
    if bit_idx = 0 then do
      let b ← wr xts.buf buf_idx 0
      wr b (buf_idx + 1) 0
    else some xts.buf
  if is_real then do
    let lo ← rd buf0 buf_idx
    let buf1 ← wr buf0 buf_idx (lo ||| (((tms <<< 4) ||| tdi) <<< bit_idx))
    let hi ← rd buf1 (buf_idx + 1)
    let buf2 ← wr buf1 (buf_idx + 1) (hi ||| (0x11 <<< bit_idx))
    some { xts with in_bits := xts.in_bits + 1, out_bits := xts.out_bits + 1, buf := buf2 }
  else
    some { xts with in_bits := xts.in_bits + 1, buf := buf0 }

/-- The `for (i = 0; i < len; i++)` loop of `io_scan` (xpc.c:647) with `n` iterations left.
The first component is `some v` when the loop body executed `return v`. -/
def io_scan_for (c : Cable) (tdi tms : List Nat) :
    Nat → Nat → xpc_ext_transfer_state_t → List UsbEvent →
      Option (Option Int × xpc_ext_transfer_state_t × List UsbEvent)
  | 0, _, xts, log => some (none, xts, log)
  | n + 1, i, xts, log => do
    let di := ((← rd tdi (i >>> 3)) >>> (i &&& 7)) &&& 1
    let tm := ((← rd tms (i >>> 3)) >>> (i &&& 7)) &&& 1
    let xts1 ← xpcu_add_bit_for_ext_transfer xts di tm true
    if xts1.in_bits = 4 * XPC_A6_CHUNKSIZE - 1 then
      let (res, xts2, log2) ← xpcu_do_ext_transfer c log xts1
      if res < 0 then some (some (-1), xts2, log2)
      else io_scan_for c tdi tms n (i + 1) xts2 log2
    else io_scan_for c tdi tms n (i + 1) xts1 log

/-- Function `io_scan` (xpc.c:632).  `log` is the USB history before the call and `stack`
the indeterminate initial content of the local `xts.buf`.  The result is the return value,
the TDO buffer and the USB history after the call. -/
def io_scan (c : Cable) (log : List UsbEvent) (stack : List Nat) (tdi tms tdo : List Nat)
    (len : Nat) : Option (Int × List Nat × List UsbEvent) := do
  let xts : xpc_ext_transfer_state_t :=
    { in_bits := 0, out_bits := 0, out_done := 0, out := tdo, buf := stack }
  let (early, xts1, log1) ← io_scan_for c tdi tms len 0 xts log
  match early with
  | some v => some (v, xts1.out, log1)
  | none =>
    if xts1.in_bits > 0 then
      let xts2 ←
        if xts1.in_bits &&& 3 = 0 then xpcu_add_bit_for_ext_transfer xts1 0 0 false
        else some xts1
      let (res, xts3, log3) ← xpcu_do_ext_transfer c log1 xts2
      if res < 0 then some (-1, xts3.out, log3) else some (0, xts3.out, log3)
    else some (0, xts1.out, log1)

/-! ## The shift engine with `out_done` in 32 bits -/

/-- Inner `while` of `xpcu_do_ext_transfer` (xpc.c:577) with `out_done` as the `int` the
source declares (xpc.c:544), held as its 32-bit two's complement pattern: a value below
2^31 is the value itself, a value from 2^31 on is negative.  With a negative `out_done`
the index `out_done >> 3` is negative, an access outside `out`; `out_done++` wraps around
(what the usual targets compute where C leaves signed overflow undefined). -/
def decode_word_int (rxw : Nat) :
    Nat → List Nat → Nat → Nat → Option (List Nat × Nat × Nat × Nat)
  | 0, out, out_done, mask => some (out, out_done, mask, 0)
  | out_rem + 1, out, out_done, mask =>
    if mask ≤ 1 <<< 15 then
      if 2147483648 ≤ out_done then none
      else do
        let last_tdo := if rxw &&& mask ≠ 0 then 1 else 0
        let out1 ←
          if out_done &&& 7 = 0 then wr out (out_done >>> 3) last_tdo
          else do
            let old ← rd out (out_done >>> 3)
            wr out (out_done >>> 3) (old ||| (last_tdo <<< (out_done &&& 7)))
        decode_word_int rxw out_rem out1 ((out_done + 1) % 4294967296) (mask <<< 1)
    else some (out, out_done, mask, out_rem + 1)

/-- Outer `while (out_rem > 0)` of `xpcu_do_ext_transfer` (xpc.c:567) over
`decode_word_int`. -/
def decode_words_int (buf : List Nat) :
    Nat → Nat → Nat → List Nat → Nat → Option (List Nat × Nat)
  | fuel, out_idx, out_rem, out, out_done =>
    if out_rem = 0 then some (out, out_done)
    else match fuel with
      | 0 => none
      | fuel + 1 => do
        let lo ← rd buf out_idx
        let hi ← rd buf (out_idx + 1)
        let rxw := (hi <<< 8) ||| lo
        let mask := if out_rem ≥ 16 then 1 else 1 <<< (16 - out_rem)
        let (out1, out_done1, _, out_rem1) ← decode_word_int rxw out_rem out out_done mask
        decode_words_int buf fuel (out_idx + 2) out_rem1 out1 out_done1

/-- Function `xpcu_do_ext_transfer` (xpc.c:553) with `out_done` in 32 bits. -/
def xpcu_do_ext_transfer_int (c : Cable) (log : List UsbEvent)
    (xts : xpc_ext_transfer_state_t) :
    Option (Int × xpc_ext_transfer_state_t × List UsbEvent) := do
  let out_len := 2 * ((xts.out_bits + 15) >>> 4)
  let (r, log1, buf1) ← xpcu_shift c log xts.in_bits xts.buf out_len xts.buf
  if r = 0 then
    let (out1, out_done1) ←
      decode_words_int buf1 xts.out_bits 0 xts.out_bits xts.out xts.out_done
    some (r, { in_bits := 0, out_bits := 0, out_done := out_done1, out := out1, buf := buf1 },
      log1)
  else
    some (r, { xts with in_bits := 0, out_bits := 0, buf := buf1 }, log1)

/-- The `for` loop of `io_scan` (xpc.c:647) with `out_done` in 32 bits. -/
def io_scan_for_int (c : Cable) (tdi tms : List Nat) :
    Nat → Nat → xpc_ext_transfer_state_t → List UsbEvent →
      Option (Option Int × xpc_ext_transfer_state_t × List UsbEvent)
  | 0, _, xts, log => some (none, xts, log)
  | n + 1, i, xts, log => do
    let di := ((← rd tdi (i >>> 3)) >>> (i &&& 7)) &&& 1
    let tm := ((← rd tms (i >>> 3)) >>> (i &&& 7)) &&& 1
    let xts1 ← xpcu_add_bit_for_ext_transfer xts di tm true
    if xts1.in_bits = 4 * XPC_A6_CHUNKSIZE - 1 then
      let (res, xts2, log2) ← xpcu_do_ext_transfer_int c log xts1
      if res < 0 then some (some (-1), xts2, log2)
      else io_scan_for_int c tdi tms n (i + 1) xts2 log2
    else io_scan_for_int c tdi tms n (i + 1) xts1 log

/-- Function `io_scan` (xpc.c:632) with `out_done` in 32 bits; `len` is an `unsigned`,
below 2^32.  The counters `in_bits` and `out_bits` are set back to 0 by every burst and a
burst is emitted when `in_bits` reaches 15, so they stay far from the range of `int`. -/
def io_scan_int (c : Cable) (log : List UsbEvent) (stack : List Nat) (tdi tms tdo : List Nat)
    (len : Nat) : Option (Int × List Nat × List UsbEvent) := do
  let xts : xpc_ext_transfer_state_t :=
    { in_bits := 0, out_bits := 0, out_done := 0, out := tdo, buf := stack }
  let (early, xts1, log1) ← io_scan_for_int c tdi tms len 0 xts log
  match early with
  | some v => some (v, xts1.out, log1)
  | none =>
    if xts1.in_bits > 0 then
      let xts2 ←
        if xts1.in_bits &&& 3 = 0 then xpcu_add_bit_for_ext_transfer xts1 0 0 false
        else some xts1
      let (res, xts3, log3) ← xpcu_do_ext_transfer_int c log1 xts2
      if res < 0 then some (-1, xts3.out, log3) else some (0, xts3.out, log3)
    else some (0, xts1.out, log1)

/-! ## The TAP tracker -/

/-- Enum `jtag_state_t` (xvcd.c:21). -/
inductive jtag_state_t where
  | test_logic_reset | run_test_idle
  | select_dr_scan | capture_dr | shift_dr
  | exit1_dr | pause_dr | exit2_dr | update_dr
  | select_ir_scan | capture_ir | shift_ir
  | exit1_ir | pause_ir | exit2_ir | update_ir
  deriving DecidableEq

open jtag_state_t in
/-- Table `next_state` of `jtag_step` (xvcd.c:56): the successors for TMS = 0 and TMS = 1. -/
def next_state : jtag_state_t → jtag_state_t × jtag_state_t
  | test_logic_reset => (run_test_idle, test_logic_reset)
  | run_test_idle => (run_test_idle, select_dr_scan)
  | select_dr_scan => (capture_dr, select_ir_scan)
  | capture_dr => (shift_dr, exit1_dr)
  | shift_dr => (shift_dr, exit1_dr)
  | exit1_dr => (pause_dr, update_dr)
  | pause_dr => (pause_dr, exit2_dr)
  | exit2_dr => (shift_dr, update_dr)
  | update_dr => (run_test_idle, select_dr_scan)
  | select_ir_scan => (capture_ir, test_logic_reset)
  | capture_ir => (shift_ir, exit1_ir)
  | shift_ir => (shift_ir, exit1_ir)
  | exit1_ir => (pause_ir, update_ir)
  | pause_ir => (pause_ir, exit2_ir)
  | exit2_ir => (shift_ir, update_ir)
  | update_ir => (run_test_idle, select_dr_scan)

/-- Function `jtag_step` (xvcd.c:54); `tms` is the 0/1 index into the table row. -/
def jtag_step (state : jtag_state_t) (tms : Bool) : jtag_state_t :=
  if tms then (next_state state).2 else (next_state state).1

/-- All sixteen TAP states, in the order of the enum. -/
def all_states : List jtag_state_t :=
  [.test_logic_reset, .run_test_idle, .select_dr_scan, .capture_dr, .shift_dr, .exit1_dr,
   .pause_dr, .exit2_dr, .update_dr, .select_ir_scan, .capture_ir, .shift_ir, .exit1_ir,
   .pause_ir, .exit2_ir, .update_ir]

/-! ## Vocabulary of the statements -/

/-- Bit `i` of an LSB-first bit vector held in bytes: bit `i mod 8` of byte `i / 8`. -/
def vec_bit (a : List Nat) (i : Nat) : Bool := (a.getD (i / 8) 0).testBit (i % 8)

/-- Number of bursts of a scan of `len` bits: one per started group of 15 bits. -/
def burst_count (len : Nat) : Nat := (len + 14) / 15

/-- Number of real slots (read samples) `M` of burst `b` of a scan of `len` bits: 15 for
every burst but the last, `len - 15 * b` for the last. -/
def burst_reals (len b : Nat) : Nat := if 15 * b + 15 ≤ len then 15 else len - 15 * b

/-- Number of slots of a burst with `m` real slots: one dummy slot is appended when `m` is
a multiple of four. -/
def slots_of (m : Nat) : Nat := if m % 4 = 0 then m + 1 else m

/-- Number of slots `N` of burst `b` of a scan of `len` bits. -/
def burst_slots (len b : Nat) : Nat := slots_of (burst_reals len b)

/-- The number whose bit `q` is `f q` for `q < n` and 0 above. -/
def nat_of_bits (f : Nat → Bool) : Nat → Nat
  | 0 => 0
  | n + 1 => nat_of_bits f n + (f n).toNat * 2 ^ n

/-- Bit `q` of byte `k` of the A6 encoding of a burst that starts at input bit `base` and
has `m` real slots.  Byte `2 * w` is the low byte of word `w` (TDI in bits 0..3, TMS in bits
4..7), byte `2 * w + 1` its high byte (clock flags in bits 0..3, read flags in bits 4..7);
slot `4 * w + q mod 4` owns the bit, and the bit is 0 when that slot is not real. -/
def a6_byte_bit (tdi tms : List Nat) (base m k q : Nat) : Bool :=
  decide (4 * (k / 2) + q % 4 < m) &&
    (if k % 2 = 1 then true
     else if q < 4 then vec_bit tdi (base + (4 * (k / 2) + q % 4))
     else vec_bit tms (base + (4 * (k / 2) + q % 4)))

/-- Byte `k` of the A6 encoding of a burst. -/
def a6_byte (tdi tms : List Nat) (base m k : Nat) : Nat :=
  nat_of_bits (a6_byte_bit tdi tms base m k) 8

/-- The A6 encoding of a burst that starts at input bit `base` and has `m` real slots:
`ceil(N / 4)` little-endian 16-bit words, `N = slots_of m`. -/
def a6_encode (tdi tms : List Nat) (base m : Nat) : List Nat :=
  (List.range (2 * ((slots_of m + 3) / 4))).map (a6_byte tdi tms base m)

/-- The 16-bit value of a little-endian pair of bytes. -/
def le16 (lo hi : Nat) : Nat := lo + 256 * hi

/-- A cable that succeeds on every transfer: control and bulk writes are accepted, and a
bulk read of `n` bytes returns exactly `n` bytes. -/
def CableOk (c : Cable) : Prop :=
  (∀ log a b v i, c.control log a b v i = true) ∧
  (∀ log ep d, c.bulk_out log ep d = true) ∧
  (∀ log ep n, ∃ d, c.bulk_in log ep n = some d ∧ d.length = n ∧ ∀ x ∈ d, x < 256)

/-- The bytes the cable returns to the bulk read of a burst: the history before the burst
is `pre`, the burst has `n` slots and the payload `payload`. -/
def burst_reply (c : Cable) (pre : List UsbEvent) (n : Nat) (payload : List Nat) : List Nat :=
  (c.bulk_in (pre ++ [UsbEvent.control 0x40 0xB0 0xA6 n true,
    UsbEvent.bulk_out 0x02 payload true]) 0x86 2).getD []

/-- The three transfers of a burst on which everything succeeds. -/
def burst_events (c : Cable) (pre : List UsbEvent) (n : Nat) (payload : List Nat) :
    List UsbEvent :=
  [UsbEvent.control 0x40 0xB0 0xA6 n true, UsbEvent.bulk_out 0x02 payload true,
   UsbEvent.bulk_in 0x86 2 (some (burst_reply c pre n payload))]

/-- The transfers of the first `b` bursts of a scan of `len` bits on a cable that succeeds;
`log` is the history before the scan. -/
def scan_trace (c : Cable) (log : List UsbEvent) (tdi tms : List Nat) (len : Nat) :
    Nat → List UsbEvent
  | 0 => []
  | b + 1 =>
    scan_trace c log tdi tms len b ++
      burst_events c (log ++ scan_trace c log tdi tms len b) (burst_slots len b)
        (a6_encode tdi tms (15 * b) (burst_reals len b))

/-- The bytes returned by the bulk read of burst `b` of a scan. -/
def scan_reply (c : Cable) (log : List UsbEvent) (tdi tms : List Nat) (len b : Nat) :
    List Nat :=
  burst_reply c (log ++ scan_trace c log tdi tms len b) (burst_slots len b)
    (a6_encode tdi tms (15 * b) (burst_reals len b))

/-- The sample the cable reported for bit `i` of a scan: bit `16 - M + i mod 15` of the
word returned by the bulk read of burst `i / 15`. -/
def scan_sample (c : Cable) (log : List UsbEvent) (tdi tms : List Nat) (len i : Nat) : Bool :=
  let d := scan_reply c log tdi tms len (i / 15)
  (le16 (d.getD 0 0) (d.getD 1 0)).testBit (16 - burst_reals len (i / 15) + i % 15)

/-- Slot counts announced by the A6 control transfers of a history, in order: the
`wIndex` argument of every control transfer whose `wValue` is 0xA6. -/
def a6_slot_counts : List UsbEvent → List Nat
  | [] => []
  | UsbEvent.control _ _ v i _ :: l =>
    if v = 0xA6 then i :: a6_slot_counts l else a6_slot_counts l
  | _ :: l => a6_slot_counts l

/-- The staging buffer holds the A6 encoding of the burst under construction: `n` slots are
staged, `m` of them real, and the bytes of every started word are those of the encoding. -/
def Staged (tdi tms : List Nat) (base : Nat) (buf : List Nat) (n m : Nat) : Prop :=
  ∀ k, k < 2 * ((n + 3) / 4) → buf[k]? = some (a6_byte tdi tms base m k)

/-- The TDO buffer after `d` samples have been stored: bit `i < d` holds sample `s i`, the
remaining bits of a partly filled last byte are 0, and the bytes after it still hold
what `tdo0` held. -/
def Written (s : Nat → Bool) (tdo0 tdo : List Nat) (d : Nat) : Prop :=
  tdo.length = tdo0.length ∧
  (∀ i, i < d → vec_bit tdo i = s i) ∧
  (∀ i, d ≤ i → i < 8 * ((d + 7) / 8) → vec_bit tdo i = false) ∧
  (∀ k, (d + 7) / 8 ≤ k → tdo[k]? = tdo0[k]?)

/-- Loop invariant of `io_scan` on a cable that succeeds, before iteration `i`: the
counters, the staged part of the current burst, the transfers issued and the samples
stored so far. -/
def ScanInv (c : Cable) (log0 : List UsbEvent) (tdi tms tdo0 : List Nat) (len i : Nat)
    (xts : xpc_ext_transfer_state_t) (log : List UsbEvent) : Prop :=
  xts.in_bits = i % 15 ∧ xts.out_bits = i % 15 ∧ xts.out_done = 15 * (i / 15) ∧
  xts.buf.length = 8 ∧ Staged tdi tms (15 * (i / 15)) xts.buf (i % 15) (i % 15) ∧
  log = log0 ++ scan_trace c log0 tdi tms len (i / 15) ∧
  Written (scan_sample c log0 tdi tms len) tdo0 xts.out (15 * (i / 15))

/-- Payload of the most recent bulk write of a history (empty when there is none). -/
def last_payload (log : List UsbEvent) : List Nat :=
  log.foldl (fun acc e => match e with
    | UsbEvent.bulk_out _ d _ => d
    | _ => acc) []

/-- The TDI values of the read-flagged slots of an A6 payload, in slot order: slot `j`
lives in word `j / 4`, its TDI value is bit `j mod 4` and its read flag bit `12 + j mod 4`
of that word (bit `4 + j mod 4` of the high byte). -/
def echo_samples (p : List Nat) : List Bool :=
  (List.range (4 * (p.length / 2))).filterMap fun j =>
    if (p.getD (2 * (j / 4) + 1) 0).testBit (4 + j % 4)
    then some ((p.getD (2 * (j / 4)) 0).testBit (j % 4))
    else none

/-- The word an echoing cable returns for a payload with `M` read-flagged slots: bit
`16 - M + j` is the TDI value of the `j`-th read-flagged slot, the other bits are 0. -/
def echo_word (p : List Nat) : Nat :=
  nat_of_bits (fun q => decide (16 - (echo_samples p).length ≤ q) &&
    (echo_samples p).getD (q - (16 - (echo_samples p).length)) false) 16

/-- The simulated cable that echoes TDI as TDO: every transfer succeeds, and a bulk read
returns, little-endian, the `echo_word` of the payload of the preceding bulk write. -/
def echo_cable : Cable where
  control := fun _ _ _ _ _ => true
  bulk_out := fun _ _ _ => true
  bulk_in := fun log _ n =>
    some ((List.range n).map fun k => (echo_word (last_payload log) >>> (8 * k)) % 256)

/-- Loop invariant of `io_scan` on an arbitrary cable, before iteration `i` (no transfer
has failed so far): the counters, the buffer sizes, and the slot counts announced so far. -/
def ScanInvAny (log0 : List UsbEvent) (tdo0 : List Nat) (len i : Nat)
    (xts : xpc_ext_transfer_state_t) (log : List UsbEvent) : Prop :=
  xts.in_bits = i % 15 ∧ xts.out_bits = i % 15 ∧ xts.out_done = 15 * (i / 15) ∧
  xts.buf.length = 8 ∧ (∃ s, Written s tdo0 xts.out (15 * (i / 15))) ∧
  ∃ evs, log = log0 ++ evs ∧ a6_slot_counts evs = (List.range (i / 15)).map (burst_slots len)

/-- Whether the transfer failed. -/
def UsbEvent.failed : UsbEvent → Bool
  | UsbEvent.control _ _ _ _ ok => !ok
  | UsbEvent.bulk_out _ _ ok => !ok
  | UsbEvent.bulk_in _ _ r => r.isNone

/-- Whether the transfer is a control transfer. -/
def UsbEvent.is_control : UsbEvent → Bool
  | UsbEvent.control _ _ _ _ _ => true
  | _ => false

/-- The `wValue` field of a control transfer. -/
def UsbEvent.wValue : UsbEvent → Option Nat
  | UsbEvent.control _ _ v _ _ => some v
  | _ => none

/-- The `wIndex` field of a control transfer. -/
def UsbEvent.wIndex : UsbEvent → Option Nat
  | UsbEvent.control _ _ _ i _ => some i
  | _ => none

/-- The transfers `b` start with the control transfer that opens an A6 burst of `n` slots
(vendor request to the device, `bRequest` 0xB0, `wValue` 0xA6, `wIndex` `n`, no data stage)
and contain no other control transfer. -/
def starts_burst (n : Nat) (b : List UsbEvent) : Prop :=
  ∃ ok rest, b = UsbEvent.control 0x40 0xB0 0xA6 n ok :: rest ∧
    ∀ e ∈ rest, e.is_control = false

/-- No transfer but the last one of the list failed. -/
def fails_only_last (l : List UsbEvent) : Bool := l.dropLast.all fun e => !e.failed

/-- The transfers of a scan of `len` bits split into bursts: burst `b` opens with the
control transfer that announces `burst_slots len b` slots. -/
def BurstLog (len : Nat) (bursts : List (List UsbEvent)) : Prop :=
  ∀ b x, bursts[b]? = some x → starts_burst (burst_slots len b) x

/-- Loop invariant of `io_scan` on an arbitrary cable, before iteration `i`: the counters,
the buffer sizes, the samples stored, and the bursts issued so far, none of which had a
failing transfer. -/
def ScanInvRun (log0 : List UsbEvent) (tdo0 : List Nat) (len i : Nat)
    (xts : xpc_ext_transfer_state_t) (log : List UsbEvent) : Prop :=
  xts.in_bits = i % 15 ∧ xts.out_bits = i % 15 ∧ xts.out_done = 15 * (i / 15) ∧
  xts.buf.length = 8 ∧ (∃ s, Written s tdo0 xts.out (15 * (i / 15))) ∧
  ∃ bursts, log = log0 ++ bursts.flatten ∧ bursts.length = i / 15 ∧ BurstLog len bursts ∧
    bursts.flatten.all (fun e => !e.failed) = true

/-! ## The XVC session loop -/

/-- Statement of `handle_data` through which a call returned. -/
inductive Exit where
  /-- A `return 1` after a failed `sread` (xvcd.c:117, 121, 134, 147, 160, 173). -/
  | read_failed
  /-- The `return 1` after a failed `write` (xvcd.c:125, 138, 240). -/
  | write_failed
  /-- The `break` after the reply to `getinfo:` (xvcd.c:131), then `return 0`. -/
  | getinfo_done
  /-- The `break` after the reply to `settck:` (xvcd.c:144), then `return 0`. -/
  | settck_done
  /-- The `return 0` for a frame that starts with none of `ge`, `se`, `sh` (xvcd.c:151). -/
  | invalid_cmd
  /-- The `return 1` of the buffer size check (xvcd.c:167). -/
  | size_exceeded
  /-- The `while` condition became false (xvcd.c:245), then `return 0` (xvcd.c:246). -/
  | gate
  deriving DecidableEq

/-- How a call of `handle_data` ends. -/
inductive Outcome where
  /-- Statement `return v`. -/
  | returned (v : Int) (via : Exit)
  /-- The call `exit(code)` after `io_scan` failed (xvcd.c:224). -/
  | exited (code : Int)
  /-- A memory access outside the bytes received or provided (undefined behaviour). -/
  | fault
  /-- The model ran out of fuel. -/
  | out_of_fuel
  deriving DecidableEq

/-- What `handle_data` works on.  `input` holds the bytes the client sends, in order, that
are not read yet (a read past its end fails); `output` the `write` calls made so far;
`jtag_state` is the static variable of `handle_data`; `usb` is the USB history.  Two
fields only observe the run: `trail` lists the states of the tracker, the state on entry
first and then the result of every `jtag_step`, and `scans` the `len` argument of every
call of `io_scan`. -/
structure Session where
  input : List Nat
  output : List (List Nat)
  jtag_state : jtag_state_t
  usb : List UsbEvent
  trail : List jtag_state_t
  scans : List Nat
  deriving DecidableEq

/-- What surrounds `handle_data`: the cable, the indeterminate initial content of the
staging buffer of `io_scan`, and whether the `k`-th `write` on the socket transfers all
its bytes. -/
structure Env where
  cable : Cable
  stack : List Nat
  write_ok : Nat → Bool

/-- Where one round of the `do ... while` loop of `handle_data` ends: at the loop condition,
with the new value of `seen_tlr`, or by leaving the function. -/
inductive Flow where
  | next (seen_tlr : Bool) (st : Session)
  | stop (r : Outcome) (st : Session)

/-- Function `sread` (xvcd.c:81) on the session's socket: `len` bytes, or `none` when the
stream ends first (the result is then not 1). -/
def sread (st : Session) (len : Nat) : Option (List Nat) × Session :=
  if st.input.length < len then (none, { st with input := [] })
  else (some (st.input.take len), { st with input := st.input.drop len })

/-- Call `write(fd, data, n)` on the session's socket; the result says whether it
returned `n`. -/
def sock_write (env : Env) (st : Session) (data : List Nat) : Bool × Session :=
  (env.write_ok st.output.length, { st with output := st.output ++ [data] })

/-- The string `xvcInfo` (xvcd.c:107), "xvcServer_v1.0:2048" and a newline. -/
def xvcInfo : List Nat :=
  [120, 118, 99, 83, 101, 114, 118, 101, 114, 95, 118, 49, 46, 48, 58, 50, 48, 52, 56, 10]

/-- The value of an `int` read from four bytes in little-endian order (two's complement). -/
def int_of_le (b : List Nat) : Int :=
  let u := b.getD 0 0 + 256 * b.getD 1 0 + 65536 * b.getD 2 0 + 16777216 * b.getD 3 0
  if u < 2147483648 then (u : Int) else (u : Int) - 4294967296

/-- Arithmetic on `int`: the result reduced to 32-bit two's complement (what the usual
targets compute where C leaves signed overflow undefined). -/
def wrap_int (x : Int) : Int := (x + 2147483648) % 4294967296 - 2147483648

/-- The tracking loop `for (i = 0; i < len; ++i)` of `handle_data` (xvcd.c:213) with `n`
iterations left. -/
def trace_state (buffer : List Nat) : Nat → Nat → Session → Option Session
  | 0, _, st => some st
  | n + 1, i, st => do
    let byte ← rd buffer (i / 8)
    let tms := decide (byte &&& (1 <<< (i &&& 7)) ≠ 0)
    let next := jtag_step st.jtag_state tms
    trace_state buffer n (i + 1) { st with jtag_state := next, trail := st.trail ++ [next] }

/-- The bogus-movement filter, the tracking loop and the call of `io_scan` in the loop
body of `handle_data` (xvcd.c:206 to 226); `result` holds `nr_bytes` zero bytes on entry.
The first component is `none` after a fault, `some none` when `io_scan` failed (the caller
exits), and `some (some r)` when the code goes on with `result` holding `r`. -/
def shift_data (env : Env) (st : Session) (buffer : List Nat) (len nr_bytes : Int) :
    Option (Option (List Nat)) × Session :=
  let result := List.replicate nr_bytes.toNat 0
  if (st.jtag_state = jtag_state_t.exit1_ir ∧ len = 5 ∧ buffer[0]? = some 0x17) ∨
      (st.jtag_state = jtag_state_t.exit1_dr ∧ len = 4 ∧ buffer[0]? = some 0x0b)
  then (some (some result), st)
  else
    match trace_state buffer len.toNat 0 st with
    | none => (none, st)
    | some st1 =>
      -- the parameter `len` of `io_scan` is `unsigned`
      let ulen := (len % 4294967296).toNat
      let st2 := { st1 with scans := st1.scans ++ [ulen] }
      match io_scan env.cable st1.usb env.stack (buffer.drop nr_bytes.toNat) buffer result
          ulen with
      | none => (none, st2)
      | some (r, tdo, usb) =>
        if r < 0 then (some none, { st2 with usb := usb })
        else (some (some tdo), { st2 with usb := usb })

/-- The part of the loop body of `handle_data` that handles a shift frame, from
`istate = jtag_state` on (xvcd.c:154 to 244). -/
def handle_shift (env : Env) (seen_tlr : Bool) (st : Session) : Flow :=
  match sread st 4 with
  | (none, st1) => Flow.stop (Outcome.returned 1 Exit.read_failed) st1
  | (some lenb, st1) =>
    let len := int_of_le lenb
    let nr_bytes := Int.tdiv (wrap_int (len + 7)) 8
    -- `nr_bytes * 2 > sizeof(buffer)` compares as `size_t`
    if (nr_bytes * 2) % 18446744073709551616 > 4096 then
      Flow.stop (Outcome.returned 1 Exit.size_exceeded) st1
    else
      match sread st1 (nr_bytes * 2).toNat with
      | (none, st2) => Flow.stop (Outcome.returned 1 Exit.read_failed) st2
      | (some buffer, st2) =>
        let seen1 := (seen_tlr || decide (st2.jtag_state = jtag_state_t.test_logic_reset)) &&
          decide (st2.jtag_state ≠ jtag_state_t.capture_dr) &&
          decide (st2.jtag_state ≠ jtag_state_t.capture_ir)
        match shift_data env st2 buffer len nr_bytes with
        | (none, st3) => Flow.stop Outcome.fault st3
        | (some none, st3) => Flow.stop (Outcome.exited 1) st3
        | (some (some result), st3) =>
          match sock_write env st3 (result.take nr_bytes.toNat) with
          | (false, st4) => Flow.stop (Outcome.returned 1 Exit.write_failed) st4
          | (true, st4) => Flow.next seen1 st4

/-- One round of the `do ... while` loop of `handle_data` (xvcd.c:110 to 244). -/
def handle_frame (env : Env) (seen_tlr : Bool) (st : Session) : Flow :=
  match sread st 2 with
  | (none, st1) => Flow.stop (Outcome.returned 1 Exit.read_failed) st1
  | (some cmd, st1) =>
    if cmd = [103, 101] then
      match sread st1 6 with
      | (none, st2) => Flow.stop (Outcome.returned 1 Exit.read_failed) st2
      | (some _, st2) =>
        match sock_write env st2 xvcInfo with
        | (false, st3) => Flow.stop (Outcome.returned 1 Exit.write_failed) st3
        | (true, st3) => Flow.stop (Outcome.returned 0 Exit.getinfo_done) st3
    else if cmd = [115, 101] then
      match sread st1 9 with
      | (none, st2) => Flow.stop (Outcome.returned 1 Exit.read_failed) st2
      | (some cmd9, st2) =>
        match sock_write env st2 ((cmd9.drop 5).take 4) with
        | (false, st3) => Flow.stop (Outcome.returned 1 Exit.write_failed) st3
        | (true, st3) => Flow.stop (Outcome.returned 0 Exit.settck_done) st3
    else if cmd = [115, 104] then
      match sread st1 4 with
      | (none, st2) => Flow.stop (Outcome.returned 1 Exit.read_failed) st2
      | (some _, st2) => handle_shift env seen_tlr st2
    else Flow.stop (Outcome.returned 0 Exit.invalid_cmd) st1

/-- The `do ... while (!(seen_tlr && jtag_state == run_test_idle))` loop of `handle_data`
(xvcd.c:109 to 245) with `fuel` rounds allowed. -/
def handle_data_loop (env : Env) : Nat → Bool → Session → Outcome × Session
  | 0, _, st => (Outcome.out_of_fuel, st)
  | fuel + 1, seen_tlr, st =>
    match handle_frame env seen_tlr st with
    | Flow.stop r st1 => (r, st1)
    | Flow.next seen1 st1 =>
      if seen1 && decide (st1.jtag_state = jtag_state_t.run_test_idle) then
        (Outcome.returned 0 Exit.gate, st1)
      else handle_data_loop env fuel seen1 st1

/-- Function `handle_data` (xvcd.c:102).  The local `seen_tlr` starts at 0; the tracker
state is the one the previous call left.  Every round that reaches the loop condition has
read at least ten bytes, so one round per byte of input is more than enough fuel. -/
def handle_data (env : Env) (st : Session) : Outcome × Session :=
  handle_data_loop env (st.input.length + 1) false { st with trail := [st.jtag_state] }

/-- The branch of `main` on the result of `handle_data` (xvcd.c:374): the connection is
closed, and its descriptor removed from the set, exactly when the result is not 0. -/
def main_closes (r : Int) : Bool := decide (r ≠ 0)

/-- The session before the first call of `handle_data`: the tracker starts in
TEST-LOGIC-RESET (xvcd.c:106), nothing was written and no USB transfer was made by the
session loop. -/
def first_session (input : List Nat) : Session :=
  { input := input, output := [], jtag_state := jtag_state_t.test_logic_reset, usb := [],
    trail := [], scans := [] }

/-- An environment with the echoing cable in which every `write` succeeds. -/
def echo_env : Env :=
  { cable := echo_cable, stack := List.replicate 8 0, write_ok := fun _ => true }

/-- What the gate of `handle_data` relies on between two rounds: when `seen_tlr` is set the
trail contains TEST-LOGIC-RESET, and the trail contains the current state. -/
def GateInv (seen_tlr : Bool) (st : Session) : Prop :=
  (seen_tlr = true → jtag_state_t.test_logic_reset ∈ st.trail) ∧ st.jtag_state ∈ st.trail

/-- The tracker has not been in CAPTURE-DR or CAPTURE-IR since its most recent visit to
TEST-LOGIC-RESET, for a trail given oldest state first. -/
def no_capture_since_reset (trail : List jtag_state_t) : Bool :=
  trail.foldl (fun ok s =>
    if s = jtag_state_t.test_logic_reset then true
    else if s = jtag_state_t.capture_dr ∨ s = jtag_state_t.capture_ir then false
    else ok) true

/-! ## Lemmas: bits and bytes, the staging buffer, the decoder, the scan loop -/

theorem shr_and_one (x k : Nat) : (x >>> k) &&& 1 = (x.testBit k).toNat := by
  rw [Nat.and_one_is_mod, Nat.shiftRight_eq_div_pow, Nat.toNat_testBit]

theorem shr1 (i : Nat) : i >>> 1 = i / 2 := by
  rw [Nat.shiftRight_eq_div_pow, pow_one]

theorem shr3 (i : Nat) : i >>> 3 = i / 8 := by
  rw [Nat.shiftRight_eq_div_pow]

theorem and7 (i : Nat) : i &&& 7 = i % 8 := Nat.and_pow_two_sub_one_eq_mod i 3

theorem and3 (i : Nat) : i &&& 3 = i % 4 := Nat.and_pow_two_sub_one_eq_mod i 2

theorem testBit_toNat (b : Bool) (j : Nat) : (b.toNat).testBit j = (decide (j = 0) && b) := by
  cases b <;> cases j <;> simp [Nat.testBit_succ]

theorem pack_lo (d t : Bool) (p q old : Nat) :
    ((old ||| (((t.toNat <<< 4) ||| d.toNat) <<< p)) % 256).testBit q
      = (decide (q < 8) && (old.testBit q || (decide (q = p) && d) || (decide (q = p + 4) && t))) := by
  rw [show (256 : Nat) = 2 ^ 8 from rfl, Nat.testBit_mod_two_pow, Nat.testBit_or,
    Nat.testBit_shiftLeft, Nat.testBit_or, Nat.testBit_shiftLeft, testBit_toNat, testBit_toNat]
  by_cases h8 : q < 8
  · by_cases h1 : q = p
    · subst h1; simp [h8]
    · by_cases h2 : q = p + 4
      · subst h2; simp
      · simp [h8, h1, h2]
        omega
  · simp [h8]

theorem pack_hi (p q old : Nat) :
    ((old ||| (0x11 <<< p)) % 256).testBit q
      = (decide (q < 8) && (old.testBit q || decide (q = p) || decide (q = p + 4))) := by
  have := pack_lo true true p q old
  simpa using this

theorem testBit_nat_of_bits (f : Nat → Bool) (n q : Nat) :
    (nat_of_bits f n).testBit q = (decide (q < n) && f q) := by
  induction n with
  | zero => simp [nat_of_bits]
  | succ n ih =>
    have hlt : nat_of_bits f n < 2 ^ n := by
      clear ih
      induction n with
      | zero => simp [nat_of_bits]
      | succ k ihk =>
        simp only [nat_of_bits]
        have : (f k).toNat ≤ 1 := Bool.toNat_le (f k)
        have h2 : 2 ^ (k + 1) = 2 ^ k + 2 ^ k := by ring
        nlinarith
    simp only [nat_of_bits]
    rw [Nat.add_comm, Nat.mul_comm, Nat.testBit_mul_pow_two_add _ hlt, ih, testBit_toNat]
    by_cases h1 : q < n
    · have : q < n + 1 := by omega
      simp [h1, this]
    · by_cases h2 : q = n
      · subst h2; simp
      · have h3 : ¬ q < n + 1 := by omega
        have h4 : ¬ q - n = 0 := by omega
        simp [h1, h3, h4]

theorem testBit_a6_byte (tdi tms : List Nat) (base m k q : Nat) :
    (a6_byte tdi tms base m k).testBit q = (decide (q < 8) && a6_byte_bit tdi tms base m k q) :=
  testBit_nat_of_bits _ _ _

theorem a6_byte_zero (tdi tms : List Nat) (base m k : Nat) (h : m ≤ 4 * (k / 2)) :
    a6_byte tdi tms base m k = 0 := by
  apply Nat.eq_of_testBit_eq
  intro q
  rw [testBit_a6_byte]
  have : ¬ (4 * (k / 2) + q % 4 < m) := by omega
  simp [a6_byte_bit, this]

theorem a6_byte_stable (tdi tms : List Nat) (base m k : Nat) (h : 4 * (k / 2) + 4 ≤ m) :
    a6_byte tdi tms base (m + 1) k = a6_byte tdi tms base m k := by
  apply Nat.eq_of_testBit_eq
  intro q
  rw [testBit_a6_byte, testBit_a6_byte]
  have h1 : 4 * (k / 2) + q % 4 < m := by omega
  have h2 : 4 * (k / 2) + q % 4 < m + 1 := by omega
  simp [a6_byte_bit, h1, h2]

theorem a6_byte_lo_step (tdi tms : List Nat) (base w p : Nat) (hp : p < 4) :
    a6_byte tdi tms base (4 * w + p + 1) (2 * w)
      = (a6_byte tdi tms base (4 * w + p) (2 * w) |||
          ((((vec_bit tms (base + (4 * w + p))).toNat <<< 4) |||
            (vec_bit tdi (base + (4 * w + p))).toNat) <<< p)) % 256 := by
  apply Nat.eq_of_testBit_eq
  intro q
  rw [pack_lo, testBit_a6_byte, testBit_a6_byte]
  by_cases h8 : q < 8
  · have e1 : 2 * w / 2 = w := by omega
    have e2 : ¬ (2 * w % 2 = 1) := by omega
    simp only [a6_byte_bit, e1, e2, h8, decide_True, Bool.true_and, if_false]
    by_cases h1 : q = p
    · subst h1
      have a1 : q % 4 = q := by omega
      have a2 : q < 4 := hp
      simp [a1, a2]
    · by_cases h2 : q = p + 4
      · subst h2
        have a1 : (p + 4) % 4 = p := by omega
        have a2 : ¬ (p + 4 < 4) := by omega
        simp [a1, a2]
      · have a3 : (4 * w + q % 4 < 4 * w + p + 1) ↔ (4 * w + q % 4 < 4 * w + p) := by omega
        simp [h1, h2, a3]
  · simp [h8]

theorem a6_byte_hi_step (tdi tms : List Nat) (base w p : Nat) (hp : p < 4) :
    a6_byte tdi tms base (4 * w + p + 1) (2 * w + 1)
      = (a6_byte tdi tms base (4 * w + p) (2 * w + 1) ||| (0x11 <<< p)) % 256 := by
  apply Nat.eq_of_testBit_eq
  intro q
  rw [pack_hi, testBit_a6_byte, testBit_a6_byte]
  by_cases h8 : q < 8
  · have e1 : (2 * w + 1) / 2 = w := by omega
    have e2 : (2 * w + 1) % 2 = 1 := by omega
    simp only [a6_byte_bit, e1, e2, h8, decide_True, Bool.true_and, if_true, Bool.and_true]
    by_cases h1 : q = p
    · subst h1
      have a1 : q % 4 = q := by omega
      simp [a1]
    · by_cases h2 : q = p + 4
      · subst h2
        have a1 : (p + 4) % 4 = p := by omega
        simp [a1]
      · have a3 : (4 * w + q % 4 < 4 * w + p + 1) ↔ (4 * w + q % 4 < 4 * w + p) := by omega
        simp [h1, h2, a3]
  · simp [h8]
theorem wr_some (a : List Nat) (i v : Nat) (h : i < a.length) :
    wr a i v = some (a.set i (v % 256)) := by
  simp [wr, h]

theorem add_tail {α : Type} (b0 : List Nat) (j lo hi x y : Nat) (hj : j + 1 < b0.length)
    (hlo : b0[j]? = some lo) (hhi : b0[j + 1]? = some hi) (f : List Nat → Option α) :
    ((rd b0 j).bind fun lo => (wr b0 j (lo ||| x)).bind fun buf1 =>
      (rd buf1 (j + 1)).bind fun hi => (wr buf1 (j + 1) (hi ||| y)).bind f)
      = f ((b0.set j ((lo ||| x) % 256)).set (j + 1) ((hi ||| y) % 256)) := by
  have h1 : (b0.set j ((lo ||| x) % 256))[j + 1]? = some hi := by
    rw [List.getElem?_set]; simp [hhi]
  simp only [rd, hlo, Option.some_bind]
  rw [wr_some _ _ _ (by omega)]
  simp only [Option.some_bind, h1]
  rw [wr_some _ _ _ (by simp; omega)]
  simp

theorem add_real_bit (tdi tms : List Nat) (base : Nat) (xts : xpc_ext_transfer_state_t)
    (m : Nat) (hm : m ≤ 14) (hin : xts.in_bits = m) (hout : xts.out_bits = m)
    (hlen : xts.buf.length = 8) (hst : Staged tdi tms base xts.buf m m) :
    ∃ buf1, xpcu_add_bit_for_ext_transfer xts (vec_bit tdi (base + m)).toNat
        (vec_bit tms (base + m)).toNat true
          = some { xts with in_bits := m + 1, out_bits := m + 1, buf := buf1 } ∧
      buf1.length = 8 ∧ Staged tdi tms base buf1 (m + 1) (m + 1) := by
  obtain ⟨w, p, hp, rfl⟩ : ∃ w p, p < 4 ∧ m = 4 * w + p := ⟨m / 4, m % 4, by omega, by omega⟩
  have hw : 2 * w + 1 < 8 := by omega
  have hbi : (4 * w + p) % 4 = p := by omega
  have hidx : (4 * w + p - p) / 2 = 2 * w := by omega
  -- the buffer once word `w` has been opened
  obtain ⟨b0, hb0, hb0def, hlo, hhi, hrest⟩ : ∃ b0 : List Nat, b0.length = 8 ∧
      b0 = (if p = 0 then (xts.buf.set (2 * w) (0 % 256)).set (2 * w + 1) (0 % 256)
        else xts.buf) ∧
      b0[2 * w]? = some (a6_byte tdi tms base (4 * w + p) (2 * w)) ∧
      b0[2 * w + 1]? = some (a6_byte tdi tms base (4 * w + p) (2 * w + 1)) ∧
      ∀ k, k < 2 * w → b0[k]? = xts.buf[k]? := by
    by_cases h0 : p = 0
    · subst h0
      refine ⟨(xts.buf.set (2 * w) (0 % 256)).set (2 * w + 1) (0 % 256), by simp [hlen],
        by simp, ?_, ?_, ?_⟩
      · rw [a6_byte_zero _ _ _ _ _ (by omega)]
        simp [List.getElem?_set, hlen, show 2 * w < 8 by omega]
      · rw [a6_byte_zero _ _ _ _ _ (by omega)]
        simp [List.getElem?_set, hlen, hw]
      · intro k hk
        simp [List.getElem?_set, show ¬ (2 * w + 1 = k) by omega, show ¬ (2 * w = k) by omega]
    · refine ⟨xts.buf, hlen, by simp [h0], hst _ (by omega), hst _ (by omega), fun _ _ => rfl⟩
  refine ⟨(b0.set (2 * w) (a6_byte tdi tms base (4 * w + p + 1) (2 * w))).set (2 * w + 1)
    (a6_byte tdi tms base (4 * w + p + 1) (2 * w + 1)), ?_, by simp [hb0], ?_⟩
  · have tail := add_tail b0 (2 * w) _ _
      ((((vec_bit tms (base + (4 * w + p))).toNat <<< 4) |||
            (vec_bit tdi (base + (4 * w + p))).toNat) <<< p) (0x11 <<< p) (by omega) hlo hhi
      (fun buf2 => some (xpc_ext_transfer_state_t.mk (4 * w + p + 1) (4 * w + p + 1)
        xts.out_done xts.out buf2))
    rw [← a6_byte_lo_step _ _ _ _ _ hp, ← a6_byte_hi_step _ _ _ _ _ hp] at tail
    rw [← tail]
    unfold xpcu_add_bit_for_ext_transfer
    by_cases h0 : p = 0
    · subst h0
      simp only [hin, hout, and3, shr1, hbi, hidx, if_true, Option.bind_eq_bind]
      rw [wr_some _ _ _ (by omega)]
      simp only [Option.some_bind]
      rw [wr_some _ _ _ (by simp; omega)]
      simp only [Option.some_bind]
      simp only [if_true] at hb0def
      rw [← hb0def]
    · simp only [if_neg h0] at hb0def
      subst hb0def
      simp only [hin, hout, and3, shr1, hbi, hidx, if_neg h0, if_true, Option.bind_eq_bind,
        Option.some_bind]
  · intro k hk
    have hk2 : k < 2 * w + 2 := by omega
    by_cases h1 : k = 2 * w + 1
    · subst h1; simp [List.getElem?_set, hb0, hw]
    · by_cases h2 : k = 2 * w
      · subst h2; simp [List.getElem?_set, hb0, show 2 * w < 8 by omega]
      · have hk3 : k < 2 * w := by omega
        rw [show 4 * w + p + 1 = (4 * w + p) + 1 from rfl,
          a6_byte_stable tdi tms base (4 * w + p) k (by omega)]
        rw [← hst k (by omega), ← hrest k hk3]
        simp [List.getElem?_set, show ¬ (2 * w + 1 = k) by omega, show ¬ (2 * w = k) by omega]
theorem add_dummy_bit (tdi tms : List Nat) (base : Nat) (xts : xpc_ext_transfer_state_t)
    (m : Nat) (hm : m ≤ 14) (h4 : m % 4 = 0) (hin : xts.in_bits = m)
    (hlen : xts.buf.length = 8) (hst : Staged tdi tms base xts.buf m m) :
    ∃ buf1, xpcu_add_bit_for_ext_transfer xts 0 0 false
          = some { xts with in_bits := m + 1, buf := buf1 } ∧
      buf1.length = 8 ∧ Staged tdi tms base buf1 (m + 1) m := by
  obtain ⟨w, rfl⟩ : ∃ w, m = 4 * w := ⟨m / 4, by omega⟩
  have hw : 2 * w + 1 < 8 := by omega
  refine ⟨(xts.buf.set (2 * w) (0 % 256)).set (2 * w + 1) (0 % 256), ?_, by simp [hlen], ?_⟩
  · unfold xpcu_add_bit_for_ext_transfer
    have hbi : (4 * w) % 4 = 0 := by omega
    have hidx : (4 * w - 0) / 2 = 2 * w := by omega
    simp only [hin, and3, shr1, hbi, hidx, if_true, Option.bind_eq_bind]
    rw [wr_some _ _ _ (by omega)]
    simp only [Option.some_bind]
    rw [wr_some _ _ _ (by simp; omega)]
    simp
  · intro k hk
    by_cases h1 : k = 2 * w + 1
    · subst h1
      rw [a6_byte_zero _ _ _ _ _ (by omega)]
      simp [List.getElem?_set, hlen, hw]
    · by_cases h2 : k = 2 * w
      · subst h2
        rw [a6_byte_zero _ _ _ _ _ (by omega)]
        simp [List.getElem?_set, hlen, show 2 * w < 8 by omega]
      · rw [← hst k (by omega)]
        simp [List.getElem?_set, show ¬ (2 * w + 1 = k) by omega, show ¬ (2 * w = k) by omega]

theorem vec_bit_set (a : List Nat) (j x i : Nat) (hj : j < a.length) :
    vec_bit (a.set j x) i = if i / 8 = j then x.testBit (i % 8) else vec_bit a i := by
  unfold vec_bit
  rw [List.getD_eq_getElem?_getD, List.getD_eq_getElem?_getD, List.getElem?_set]
  by_cases h : j = i / 8
  · subst h; simp [hj]
  · have h2 : ¬ (i / 8 = j) := fun e => h e.symm
    simp [h, h2]

theorem store_bit (s : Nat → Bool) (tdo0 tdo : List Nat) (d : Nat) (v : Bool)
    (hw : Written s tdo0 tdo d) (hlen : d / 8 < tdo.length) (hs : s d = v) :
    ∃ tdo1, (if d &&& 7 = 0 then wr tdo (d >>> 3) v.toNat
        else (rd tdo (d >>> 3)).bind fun old =>
          wr tdo (d >>> 3) (old ||| (v.toNat <<< (d &&& 7)))) = some tdo1 ∧
      Written s tdo0 tdo1 (d + 1) := by
  obtain ⟨h1, h2, h3, h4⟩ := hw
  rw [and7, shr3]
  obtain ⟨old, hold⟩ : ∃ old, tdo[d / 8]? = some old := ⟨tdo[d / 8], by simp [hlen]⟩
  have hget : tdo.getD (d / 8) 0 = old := by simp [List.getD_eq_getElem?_getD, hold]
  -- the byte stored and its bits
  obtain ⟨x, hx, hbit⟩ : ∃ x, (if d % 8 = 0 then wr tdo (d / 8) v.toNat
        else (rd tdo (d / 8)).bind fun old =>
          wr tdo (d / 8) (old ||| (v.toNat <<< (d % 8)))) = some (tdo.set (d / 8) x) ∧
      ∀ q, q < 8 → x.testBit q =
        if q < d % 8 then old.testBit q else (decide (q = d % 8) && v) := by
    by_cases h0 : d % 8 = 0
    · refine ⟨v.toNat % 256, by simp [h0, wr, hlen], ?_⟩
      intro q hq
      rw [show (256 : Nat) = 2 ^ 8 from rfl, Nat.testBit_mod_two_pow, testBit_toNat]
      simp [h0, hq]
    · refine ⟨(old ||| (v.toNat <<< (d % 8))) % 256, by simp [h0, wr, rd, hold, hlen], ?_⟩
      intro q hq
      rw [show (256 : Nat) = 2 ^ 8 from rfl, Nat.testBit_mod_two_pow, Nat.testBit_or,
        Nat.testBit_shiftLeft, testBit_toNat]
      by_cases hq1 : q < d % 8
      · have : ¬ (q ≥ d % 8) := by omega
        simp [hq, hq1, this]
      · have hcl : old.testBit q = false := by
          have := h3 (8 * (d / 8) + q) (by omega) (by omega)
          unfold vec_bit at this
          rw [show (8 * (d / 8) + q) / 8 = d / 8 by omega,
            show (8 * (d / 8) + q) % 8 = q by omega, hget] at this
          exact this
        by_cases hq2 : q = d % 8
        · subst hq2; simp [hq, hcl]
        · have : ¬ (q - d % 8 = 0) := by omega
          simp [hq, hq1, hq2, hcl, this]
  refine ⟨tdo.set (d / 8) x, hx, by simp [h1], ?_, ?_, ?_⟩
  · intro i hi
    rw [vec_bit_set _ _ _ _ hlen]
    by_cases hb : i / 8 = d / 8
    · rw [if_pos hb, hbit _ (by omega)]
      by_cases hid : i = d
      · subst hid; simp [hs]
      · have : i % 8 < d % 8 := by omega
        rw [if_pos this, ← h2 i (by omega)]
        unfold vec_bit; rw [hb, hget]
    · rw [if_neg hb]
      exact h2 i (by omega)
  · intro i hi1 hi2
    rw [vec_bit_set _ _ _ _ hlen]
    have hb : i / 8 = d / 8 := by omega
    rw [if_pos hb, hbit _ (by omega)]
    have a1 : ¬ (i % 8 < d % 8) := by omega
    have a2 : ¬ (i % 8 = d % 8) := by omega
    simp [a1, a2]
  · intro k hk
    rw [List.getElem?_set, if_neg (by omega)]
    exact h4 k (by omega)
theorem and_two_pow_ne_zero (x e : Nat) :
    (if x &&& 2 ^ e ≠ 0 then 1 else 0) = (x.testBit e).toNat := by
  rw [Nat.and_two_pow]
  cases h : x.testBit e <;> simp

theorem decode_word_spec (s : Nat → Bool) (tdo0 : List Nat) (rxw : Nat) :
    ∀ (r : Nat) (tdo : List Nat) (d : Nat), r ≤ 16 → Written s tdo0 tdo d →
      (d + r + 7) / 8 ≤ tdo.length →
      (∀ k, k < r → s (d + k) = rxw.testBit (16 - r + k)) →
      ∃ tdo1, decode_word rxw r tdo d (2 ^ (16 - r)) = some (tdo1, d + r, 2 ^ 16, 0) ∧
        Written s tdo0 tdo1 (d + r) := by
  intro r
  induction r with
  | zero =>
    intro tdo d _ hw _ _
    exact ⟨tdo, by simp [decode_word], hw⟩
  | succ r ih =>
    intro tdo d hr hw hlen hs
    obtain ⟨tdo1, h1, hw1⟩ := store_bit s tdo0 tdo d (rxw.testBit (16 - (r + 1)))
      hw (by omega) (by simpa using hs 0 (by omega))
    have hlen1 : tdo1.length = tdo.length := by rw [hw1.1, hw.1]
    obtain ⟨tdo2, h2, hw2⟩ := ih tdo1 (d + 1) (by omega) hw1 (by omega) (by
      intro k hk
      have := hs (k + 1) (by omega)
      rw [show d + 1 + k = d + (k + 1) by omega, this]
      congr 1; omega)
    refine ⟨tdo2, ?_, by rw [show d + (r + 1) = d + 1 + r by omega]; exact hw2⟩
    unfold decode_word
    have hm : 2 ^ (16 - (r + 1)) ≤ 1 <<< 15 := by
      rw [Nat.one_shiftLeft]; exact Nat.pow_le_pow_right (by norm_num) (by omega)
    have hsh : 2 ^ (16 - (r + 1)) <<< 1 = 2 ^ (16 - r) := by
      rw [Nat.shiftLeft_eq, ← pow_succ]; congr 1; omega
    simp only [if_pos hm, and_two_pow_ne_zero, Option.bind_eq_bind, hsh]
    have hfin : (some tdo1).bind (fun y => decode_word rxw r y (d + 1) (2 ^ (16 - r)))
        = some (tdo2, d + (r + 1), 2 ^ 16, 0) := by
      rw [Option.some_bind, h2, show d + (r + 1) = d + 1 + r by omega]
    by_cases h0 : d &&& 7 = 0
    · rw [if_pos h0] at h1 ⊢
      rw [h1, hfin]
    · rw [if_neg h0] at h1 ⊢
      rw [← Option.bind_assoc, h1, hfin]
theorem rxw_eq (lo hi : Nat) (h : lo < 256) : (hi <<< 8) ||| lo = le16 lo hi := by
  apply Nat.eq_of_testBit_eq
  intro q
  rw [le16, Nat.add_comm, show (256 : Nat) = 2 ^ 8 from rfl, Nat.testBit_mul_pow_two_add _ h,
    Nat.testBit_or, Nat.testBit_shiftLeft]
  by_cases hq : q < 8
  · have : ¬ (q ≥ 8) := by omega
    simp [hq, this]
  · have h8 : (2 : Nat) ^ 8 ≤ 2 ^ q := Nat.pow_le_pow_right (by norm_num) (by omega)
    have h1 : lo.testBit q = false := Nat.testBit_lt_two_pow (by omega)
    have : q ≥ 8 := by omega
    simp [hq, this, h1]

theorem xpcu_shift_ok (c : Cable) (hc : CableOk c) (log : List UsbEvent) (n : Nat)
    (buf : List Nat) (hn : n ≤ 15) (hbuf : buf.length = 8) :
    ∃ lo hi, lo < 256 ∧ hi < 256 ∧
      burst_reply c log n (buf.take (2 * ((n + 3) / 4))) = [lo, hi] ∧
      xpcu_shift c log n buf 2 buf
        = some (0, log ++ burst_events c log n (buf.take (2 * ((n + 3) / 4))),
            lo :: hi :: buf.drop 2) := by
  obtain ⟨h1, h2, h3⟩ := hc
  obtain ⟨d, hd, hdl, hdb⟩ := h3 (log ++ [UsbEvent.control 0x40 0xB0 0xA6 n true,
    UsbEvent.bulk_out 0x02 (buf.take (2 * ((n + 3) / 4))) true]) 0x86 2
  match d, hdl, hdb, hd with
  | [lo, hi], _, hdb, hd =>
    refine ⟨lo, hi, hdb lo (by simp), hdb hi (by simp), ?_, ?_⟩
    · simp [burst_reply, hd]
    · have e : (0x06 ||| LIBUSB_ENDPOINT_IN) = 0x86 := by decide
      have hl : ¬ (buf.length < 2 * ((n + 3) / 4)) := by omega
      have hd2 : c.bulk_in (log ++ [UsbEvent.control 0x40 0xB0 0xA6 n true] ++
          [UsbEvent.bulk_out 0x02 (buf.take (2 * ((n + 3) / 4))) true]) 0x86 2
            = some [lo, hi] := by
        rw [List.append_assoc]; exact hd
      unfold xpcu_shift
      simp only [h1, h2, Nat.shiftRight_eq_div_pow, e, hd2]
      simp [hl, hbuf, burst_events, burst_reply, hd]
      omega
theorem do_ext_transfer_ok (c : Cable) (hc : CableOk c) (s : Nat → Bool) (tdo0 : List Nat)
    (log : List UsbEvent) (xts : xpc_ext_transfer_state_t) (n m : Nat)
    (hn : n ≤ 15) (hm1 : 1 ≤ m) (hm15 : m ≤ 15)
    (hin : xts.in_bits = n) (hout : xts.out_bits = m) (hbuf : xts.buf.length = 8)
    (hw : Written s tdo0 xts.out xts.out_done)
    (hlen : (xts.out_done + m + 7) / 8 ≤ xts.out.length)
    (hs : ∀ k, k < m → s (xts.out_done + k) =
      (le16 ((burst_reply c log n (xts.buf.take (2 * ((n + 3) / 4)))).getD 0 0)
        ((burst_reply c log n (xts.buf.take (2 * ((n + 3) / 4)))).getD 1 0)).testBit
          (16 - m + k)) :
    ∃ tdo1 buf1, xpcu_do_ext_transfer c log xts
        = some (0, ⟨0, 0, xts.out_done + m, tdo1, buf1⟩,
            log ++ burst_events c log n (xts.buf.take (2 * ((n + 3) / 4)))) ∧
      buf1.length = 8 ∧ Written s tdo0 tdo1 (xts.out_done + m) := by
  obtain ⟨lo, hi, hlo, hhi, hrep, hshift⟩ := xpcu_shift_ok c hc log n xts.buf hn hbuf
  rw [hrep] at hs
  obtain ⟨tdo1, hdec, hw1⟩ := decode_word_spec s tdo0 (le16 lo hi) m xts.out xts.out_done
    (by omega) hw hlen (by simpa using hs)
  refine ⟨tdo1, lo :: hi :: xts.buf.drop 2, ?_, by simp [hbuf], hw1⟩
  have ho : 2 * ((m + 15) >>> 4) = 2 := by
    rw [Nat.shiftRight_eq_div_pow]; omega
  obtain ⟨f, rfl⟩ : ∃ f, m = f + 1 := ⟨m - 1, by omega⟩
  have hmask : (if f + 1 ≥ 16 then 1 else 1 <<< (16 - (f + 1))) = 2 ^ (16 - (f + 1)) := by
    rw [if_neg (by omega), Nat.one_shiftLeft]
  unfold xpcu_do_ext_transfer
  simp only [hin, hout, ho, hshift, Option.bind_eq_bind, Option.some_bind, if_true]
  unfold decode_words
  simp only [rd, List.getElem?_cons_zero, List.getElem?_cons_succ, Option.bind_eq_bind,
    Option.some_bind, rxw_eq lo hi hlo, hmask, hdec, Nat.succ_ne_zero, if_false]
  unfold decode_words
  simp
theorem staged_take (tdi tms : List Nat) (base : Nat) (buf : List Nat) (n m : Nat)
    (hst : Staged tdi tms base buf n m) :
    buf.take (2 * ((n + 3) / 4)) = (List.range (2 * ((n + 3) / 4))).map (a6_byte tdi tms base m) := by
  apply List.ext_getElem?
  intro k
  rw [List.getElem?_take]
  by_cases hk : k < 2 * ((n + 3) / 4)
  · rw [if_pos hk, hst k hk]
    simp [List.getElem?_map, List.getElem?_range hk]
  · rw [if_neg hk]
    have : ¬ (k < (List.range (2 * ((n + 3) / 4))).length) := by simpa using hk
    rw [List.getElem?_map, List.getElem?_eq_none (by omega)]
    rfl

theorem staged_encode (tdi tms : List Nat) (base : Nat) (buf : List Nat) (m : Nat)
    (hst : Staged tdi tms base buf (slots_of m) m) :
    buf.take (2 * ((slots_of m + 3) / 4)) = a6_encode tdi tms base m :=
  staged_take tdi tms base buf (slots_of m) m hst

theorem rd_bit (a : List Nat) (i len : Nat) (hi : i < len) (ha : (len + 7) / 8 ≤ a.length) :
    rd a (i >>> 3) = some (a.getD (i / 8) 0) := by
  have : i / 8 < a.length := by omega
  simp [rd, shr3, List.getD_eq_getElem?_getD, this]

theorem scan_sample_eq (c : Cable) (log0 : List UsbEvent) (tdi tms : List Nat)
    (len b m k : Nat) (hk : k < 15) (hm : burst_reals len b = m) :
    scan_sample c log0 tdi tms len (15 * b + k)
      = (le16 ((burst_reply c (log0 ++ scan_trace c log0 tdi tms len b) (slots_of m)
            (a6_encode tdi tms (15 * b) m)).getD 0 0)
          ((burst_reply c (log0 ++ scan_trace c log0 tdi tms len b) (slots_of m)
            (a6_encode tdi tms (15 * b) m)).getD 1 0)).testBit (16 - m + k) := by
  have e1 : (15 * b + k) / 15 = b := by omega
  have e2 : (15 * b + k) % 15 = k := by omega
  simp only [scan_sample, scan_reply, burst_slots, e1, e2, hm]
theorem io_scan_for_ok (c : Cable) (hc : CableOk c) (log0 : List UsbEvent)
    (tdi tms tdo0 : List Nat) (len : Nat)
    (htdi : (len + 7) / 8 ≤ tdi.length) (htms : (len + 7) / 8 ≤ tms.length)
    (htdo : (len + 7) / 8 ≤ tdo0.length) :
    ∀ (n i : Nat) (xts : xpc_ext_transfer_state_t) (log : List UsbEvent), i + n = len →
      ScanInv c log0 tdi tms tdo0 len i xts log →
      ∃ xts1 log1, io_scan_for c tdi tms n i xts log = some (none, xts1, log1) ∧
        ScanInv c log0 tdi tms tdo0 len len xts1 log1 := by
  intro n
  induction n with
  | zero =>
    intro i xts log hi hinv
    have : i = len := by omega
    subst this
    exact ⟨xts, log, by simp [io_scan_for], hinv⟩
  | succ n ih =>
    intro i xts log hi hinv
    obtain ⟨h1, h2, h3, h4, h5, h6, h7⟩ := hinv
    have hlt : i < len := by omega
    have e : 15 * (i / 15) + i % 15 = i := by omega
    obtain ⟨buf1, hadd, hbl, hst1⟩ :=
      add_real_bit tdi tms (15 * (i / 15)) xts (i % 15) (by omega) h1 h2 h4 h5
    rw [e] at hadd
    have hdi : ((tdi.getD (i / 8) 0) >>> (i &&& 7)) &&& 1 = (vec_bit tdi i).toNat := by
      rw [and7, shr_and_one]; rfl
    have htm : ((tms.getD (i / 8) 0) >>> (i &&& 7)) &&& 1 = (vec_bit tms i).toNat := by
      rw [and7, shr_and_one]; rfl
    have hchunk : 4 * XPC_A6_CHUNKSIZE - 1 = 15 := rfl
    unfold io_scan_for
    simp only [rd_bit tdi i len hlt htdi, rd_bit tms i len hlt htms, Option.bind_eq_bind,
      Option.some_bind, hdi, htm, hadd, hchunk]
    by_cases h14 : i % 15 = 14
    · -- the burst is full: it is emitted
      have hb : (i + 1) / 15 = i / 15 + 1 := by omega
      have hr : burst_reals len (i / 15) = 15 := by
        unfold burst_reals; rw [if_pos (by omega)]
      have hs15 : slots_of 15 = 15 := by decide
      rw [h14] at hst1
      have hpay : buf1.take (2 * ((15 + 3) / 4)) = a6_encode tdi tms (15 * (i / 15)) 15 :=
        staged_encode tdi tms _ buf1 15 (by rw [hs15]; exact hst1)
      have hlen7 := h7.1
      obtain ⟨tdo1, buf2, hdo, hbl2, hw2⟩ := do_ext_transfer_ok c hc
        (scan_sample c log0 tdi tms len) tdo0 log
        ⟨i % 15 + 1, i % 15 + 1, xts.out_done, xts.out, buf1⟩ 15 15 (by omega) (by omega)
        (by omega) (by simp [h14]) (by simp [h14]) hbl (by simpa [h3] using h7)
        (by simp only; omega) (by
          intro k hk
          simp only [h3, hpay, h6]
          have := scan_sample_eq c log0 tdi tms len (i / 15) 15 k hk hr
          rw [hs15] at this
          exact this)
      simp only [hpay] at hdo
      rw [if_pos (by simp [h14]), hdo]
      simp only [Option.some_bind]
      rw [if_neg (by decide)]
      apply ih (i + 1) _ _ (by omega)
      refine ⟨by simp; omega, by simp; omega, by simp only [h3]; omega, hbl2, ?_, ?_, ?_⟩
      · intro k hk
        have : (i + 1) % 15 = 0 := by omega
        rw [this] at hk
        omega
      · rw [hb, h6]
        simp only [scan_trace, burst_slots, hr, hs15, List.append_assoc]
      · rw [hb, show 15 * (i / 15 + 1) = 15 * (i / 15) + 15 by ring, ← h3]
        exact hw2
    · -- the burst goes on
      have hb : (i + 1) / 15 = i / 15 := by omega
      have hm : (i + 1) % 15 = i % 15 + 1 := by omega
      rw [if_neg (by simp; omega)]
      apply ih (i + 1) _ _ (by omega)
      refine ⟨by simp [hm], by simp [hm], by simp [hb, h3], hbl, ?_, by rw [hb]; exact h6, ?_⟩
      · rw [hb, hm]; exact hst1
      · rw [hb]; exact h7
theorem io_scan_ok (c : Cable) (hc : CableOk c) (log0 : List UsbEvent)
    (stack tdi tms tdo0 : List Nat) (len : Nat) (hstack : stack.length = 8)
    (htdi : (len + 7) / 8 ≤ tdi.length) (htms : (len + 7) / 8 ≤ tms.length)
    (htdo : (len + 7) / 8 ≤ tdo0.length) :
    ∃ tdo1, io_scan c log0 stack tdi tms tdo0 len
        = some (0, tdo1, log0 ++ scan_trace c log0 tdi tms len (burst_count len)) ∧
      Written (scan_sample c log0 tdi tms len) tdo0 tdo1 len := by
  have hinit : ScanInv c log0 tdi tms tdo0 len 0 ⟨0, 0, 0, tdo0, stack⟩ log0 := by
    refine ⟨rfl, rfl, rfl, hstack, ?_, by simp [scan_trace], rfl, ?_, ?_, fun _ _ => rfl⟩
    · intro k hk; simp at hk
    · intro i hi; simp at hi
    · intro i _ hi; simp at hi
  obtain ⟨xts, log, hfor, h1, h2, h3, h4, h5, h6, h7⟩ :=
    io_scan_for_ok c hc log0 tdi tms tdo0 len htdi htms htdo len 0 _ log0 (by omega) hinit
  unfold io_scan
  simp only [hfor, Option.bind_eq_bind, Option.some_bind]
  by_cases hr : len % 15 = 0
  · have hb : burst_count len = len / 15 := by unfold burst_count; omega
    refine ⟨xts.out, ?_, ?_⟩
    · rw [if_neg (by omega), hb, h6]
    · have : 15 * (len / 15) = len := by omega
      rw [this] at h7; exact h7
  · have hb : burst_count len = len / 15 + 1 := by unfold burst_count; omega
    have hreal : burst_reals len (len / 15) = len % 15 := by
      unfold burst_reals; rw [if_neg (by omega)]; omega
    -- the state handed to the last burst
    obtain ⟨xts2, hx2, hin2, hout2, hod2, hobuf2, hbl2, hst2⟩ :
        ∃ xts2, (if xts.in_bits &&& 3 = 0 then xpcu_add_bit_for_ext_transfer xts 0 0 false
            else some xts) = some xts2 ∧
          xts2.in_bits = slots_of (len % 15) ∧ xts2.out_bits = len % 15 ∧
          xts2.out_done = xts.out_done ∧ xts2.out = xts.out ∧ xts2.buf.length = 8 ∧
          Staged tdi tms (15 * (len / 15)) xts2.buf (slots_of (len % 15)) (len % 15) := by
      rw [and3, h1]
      by_cases h40 : len % 15 % 4 = 0
      · obtain ⟨buf1, hadd, hbl, hst⟩ := add_dummy_bit tdi tms (15 * (len / 15)) xts
          (len % 15) (by omega) h40 h1 h4 h5
        refine ⟨⟨len % 15 + 1, xts.out_bits, xts.out_done, xts.out, buf1⟩,
          by rw [if_pos h40]; exact hadd, ?_, h2, rfl, rfl, hbl, ?_⟩
        · simp [slots_of, h40]
        · simpa [slots_of, h40] using hst
      · refine ⟨xts, by rw [if_neg h40], ?_, h2, rfl, rfl, h4, ?_⟩
        · simp [slots_of, h40, h1]
        · simpa [slots_of, h40] using h5
    have hpay := staged_encode tdi tms _ xts2.buf (len % 15) hst2
    have hs15 : slots_of (len % 15) ≤ 15 := by unfold slots_of; split <;> omega
    have hlen7 := h7.1
    obtain ⟨tdo1, buf2, hdo, _, hw2⟩ := do_ext_transfer_ok c hc
      (scan_sample c log0 tdi tms len) tdo0 log xts2 (slots_of (len % 15)) (len % 15)
      hs15 (by omega) (by omega) hin2 hout2 hbl2 (by rw [hobuf2, hod2, h3]; exact h7)
      (by rw [hobuf2, hod2, h3]; omega) (by
        intro k hk
        rw [hod2, h3, hpay, h6]
        exact scan_sample_eq c log0 tdi tms len (len / 15) (len % 15) k (by omega) hreal)
    rw [hpay] at hdo
    refine ⟨tdo1, ?_, ?_⟩
    · have hjoin : ∀ f : xpc_ext_transfer_state_t → Option (Int × List Nat × List UsbEvent),
          (if xts.in_bits &&& 3 = 0 then (xpcu_add_bit_for_ext_transfer xts 0 0 false).bind f
            else f xts) = f xts2 := by
        intro f
        by_cases h : xts.in_bits &&& 3 = 0
        · rw [if_pos h] at hx2 ⊢
          rw [hx2, Option.some_bind]
        · rw [if_neg h] at hx2 ⊢
          cases hx2; rfl
      rw [if_pos (by omega), hjoin]
      simp only [Option.some_bind, hdo]
      rw [if_neg (by decide), hb, h6]
      simp only [scan_trace, burst_slots, hreal, List.append_assoc]
    · have : xts2.out_done + len % 15 = len := by rw [hod2, h3]; omega
      rw [this] at hw2; exact hw2
theorem a6_slot_counts_append (l1 l2 : List UsbEvent) :
    a6_slot_counts (l1 ++ l2) = a6_slot_counts l1 ++ a6_slot_counts l2 := by
  induction l1 with
  | nil => rfl
  | cons e l ih =>
    cases e with
    | control a b v i ok =>
      by_cases hv : v = 0xA6
      · simp [a6_slot_counts, hv, ih]
      · simp [a6_slot_counts, hv, ih]
    | bulk_out ep d ok => simpa [a6_slot_counts] using ih
    | bulk_in ep n r => simpa [a6_slot_counts] using ih

theorem scan_trace_slot_counts (c : Cable) (log : List UsbEvent) (tdi tms : List Nat)
    (len nb : Nat) :
    a6_slot_counts (scan_trace c log tdi tms len nb) = (List.range nb).map (burst_slots len) := by
  induction nb with
  | zero => rfl
  | succ b ih =>
    rw [scan_trace, a6_slot_counts_append, ih, List.range_succ, List.map_append]
    simp [burst_events, a6_slot_counts]

theorem echo_cable_ok : CableOk echo_cable := by
  refine ⟨fun _ _ _ _ _ => rfl, fun _ _ _ => rfl, fun log ep n => ⟨_, rfl, by simp, ?_⟩⟩
  intro x hx
  simp only [List.mem_map] at hx
  obtain ⟨k, _, rfl⟩ := hx
  exact Nat.mod_lt _ (by norm_num)

theorem add_bit_some (xts : xpc_ext_transfer_state_t) (tdi tms : Nat) (real : Bool)
    (h : xts.in_bits ≤ 14) (hl : xts.buf.length = 8) :
    ∃ buf1, xpcu_add_bit_for_ext_transfer xts tdi tms real
        = some ⟨xts.in_bits + 1, if real then xts.out_bits + 1 else xts.out_bits,
            xts.out_done, xts.out, buf1⟩ ∧ buf1.length = 8 := by
  obtain ⟨w, p, hp, hm⟩ : ∃ w p, p < 4 ∧ xts.in_bits = 4 * w + p :=
    ⟨xts.in_bits / 4, xts.in_bits % 4, by omega, by omega⟩
  have hw : 2 * w + 1 < 8 := by omega
  have hbi : (4 * w + p) % 4 = p := by omega
  have hidx : (4 * w + p - p) / 2 = 2 * w := by omega
  -- the buffer once the word has been opened
  obtain ⟨b0, hb0, hb0def⟩ : ∃ b0 : List Nat, b0.length = 8 ∧
      b0 = (if p = 0 then (xts.buf.set (2 * w) (0 % 256)).set (2 * w + 1) (0 % 256)
        else xts.buf) := by
    by_cases h0 : p = 0
    · exact ⟨(xts.buf.set (2 * w) (0 % 256)).set (2 * w + 1) (0 % 256), by simp [hl],
        by simp [h0]⟩
    · exact ⟨xts.buf, hl, by simp [h0]⟩
  have hopen : ∀ {α : Type} (f : List Nat → Option α),
      (if p = 0 then (wr xts.buf (2 * w) 0).bind fun b => (wr b (2 * w + 1) 0).bind f
        else f xts.buf) = f b0 := by
    intro α f
    by_cases h0 : p = 0
    · rw [if_pos h0, wr_some _ _ _ (by omega), Option.some_bind,
        wr_some _ _ _ (by simp; omega), Option.some_bind, hb0def, if_pos h0]
    · rw [if_neg h0, hb0def, if_neg h0]
  obtain ⟨lo, hlo⟩ : ∃ lo, b0[2 * w]? = some lo := ⟨b0[2 * w], by simp⟩
  obtain ⟨hi, hhi⟩ : ∃ hi, b0[2 * w + 1]? = some hi := ⟨b0[2 * w + 1], by simp⟩
  cases real with
  | false =>
    refine ⟨b0, ?_, hb0⟩
    simp only [Bool.false_eq_true, if_false]
    have := hopen (fun b => some (xpc_ext_transfer_state_t.mk (xts.in_bits + 1) xts.out_bits
      xts.out_done xts.out b))
    rw [← this]
    unfold xpcu_add_bit_for_ext_transfer
    by_cases h0 : p = 0
    · subst h0
      simp only [hm, and3, shr1, hbi, hidx, if_true, Option.bind_eq_bind, Bool.false_eq_true,
        if_false]
    · simp only [hm, and3, shr1, hbi, hidx, if_neg h0, Option.bind_eq_bind, Option.some_bind,
        Bool.false_eq_true, if_false]
  | true =>
    refine ⟨(b0.set (2 * w) ((lo ||| (((tms <<< 4) ||| tdi) <<< p)) % 256)).set (2 * w + 1)
        ((hi ||| (0x11 <<< p)) % 256), ?_, by simp [hb0]⟩
    · have tail := add_tail b0 (2 * w) lo hi (((tms <<< 4) ||| tdi) <<< p) (0x11 <<< p)
        (by omega) hlo hhi
        (fun buf2 => some (xpc_ext_transfer_state_t.mk (xts.in_bits + 1) (xts.out_bits + 1)
          xts.out_done xts.out buf2))
      simp only [if_true]
      have hop := hopen (fun y => (rd y (2 * w)).bind fun lo =>
        (wr y (2 * w) (lo ||| (((tms <<< 4) ||| tdi) <<< p))).bind fun buf1 =>
          (rd buf1 (2 * w + 1)).bind fun hi =>
            (wr buf1 (2 * w + 1) (hi ||| (0x11 <<< p))).bind fun buf2 =>
              some (xpc_ext_transfer_state_t.mk (xts.in_bits + 1) (xts.out_bits + 1)
                xts.out_done xts.out buf2))
      beta_reduce at hop
      rw [← tail, ← hop]
      unfold xpcu_add_bit_for_ext_transfer
      by_cases h0 : p = 0
      · subst h0
        simp only [hm, and3, shr1, hbi, hidx, if_true, Option.bind_eq_bind]
      · simp only [hm, and3, shr1, hbi, hidx, if_neg h0, if_true, Option.bind_eq_bind,
          Option.some_bind]

theorem decode_words_some (s : Nat → Bool) (tdo0 buf out : List Nat) (od m : Nat)
    (hbuf : 2 ≤ buf.length) (hm1 : 1 ≤ m) (hm : m ≤ 15) (hw : Written s tdo0 out od)
    (hlen : (od + m + 7) / 8 ≤ out.length) :
    ∃ out1 s1, decode_words buf m 0 m out od = some (out1, od + m) ∧
      Written s1 tdo0 out1 (od + m) := by
  obtain ⟨lo, hlo⟩ : ∃ lo, buf[0]? = some lo := ⟨buf[0], by simp⟩
  obtain ⟨hi, hhi⟩ : ∃ hi, buf[1]? = some hi := ⟨buf[1], by simp⟩
  have hw1 : Written (fun i => if i < od then s i else
      ((hi <<< 8) ||| lo).testBit (16 - m + (i - od))) tdo0 out od := by
    refine ⟨hw.1, ?_, hw.2.2.1, hw.2.2.2⟩
    intro i hi
    rw [hw.2.1 i hi]; simp [hi]
  obtain ⟨out1, hdec, hw2⟩ := decode_word_spec _ tdo0 ((hi <<< 8) ||| lo) m out od
    (by omega) hw1 hlen (by intro k _; simp)
  refine ⟨out1, _, ?_, hw2⟩
  obtain ⟨f, rfl⟩ : ∃ f, m = f + 1 := ⟨m - 1, by omega⟩
  have hmask : (if f + 1 ≥ 16 then 1 else 1 <<< (16 - (f + 1))) = 2 ^ (16 - (f + 1)) := by
    rw [if_neg (by omega), Nat.one_shiftLeft]
  unfold decode_words
  simp only [rd, Nat.zero_add, hlo, hhi, Option.bind_eq_bind, Option.some_bind, hmask, hdec,
    Nat.succ_ne_zero, if_false]
  unfold decode_words
  simp

theorem xpcu_shift_any (c : Cable) (log : List UsbEvent) (n : Nat) (buf : List Nat)
    (hn : n ≤ 15) (hbuf : buf.length = 8) :
    ∃ r evs buf1, xpcu_shift c log n buf 2 buf = some (r, log ++ evs, buf1) ∧
      (r = 0 ∨ r = -1) ∧ buf1.length = 8 ∧ a6_slot_counts evs = [n] := by
  have hl : ¬ (buf.length < 2 * ((n + 3) / 4)) := by omega
  have e : (0x06 ||| LIBUSB_ENDPOINT_IN) = 0x86 := by decide
  unfold xpcu_shift
  simp only [Nat.shiftRight_eq_div_pow, e, show (2 : Nat) ^ 2 = 4 by norm_num, if_neg hl]
  cases h1 : c.control log 0x40 0xB0 0xA6 n with
  | false =>
    exact ⟨-1, [UsbEvent.control 0x40 0xB0 0xA6 n false], buf, by simp, Or.inr rfl, hbuf,
      by simp [a6_slot_counts]⟩
  | true =>
    cases h2 : c.bulk_out (log ++ [UsbEvent.control 0x40 0xB0 0xA6 n true]) 0x02
        (buf.take (2 * ((n + 3) / 4))) with
    | false =>
      exact ⟨-1, [UsbEvent.control 0x40 0xB0 0xA6 n true,
        UsbEvent.bulk_out 0x02 (buf.take (2 * ((n + 3) / 4))) false], buf,
        by simp [List.append_assoc], Or.inr rfl, hbuf, by simp [a6_slot_counts]⟩
    | true =>
      cases h3 : c.bulk_in (log ++ [UsbEvent.control 0x40 0xB0 0xA6 n true] ++
          [UsbEvent.bulk_out 0x02 (buf.take (2 * ((n + 3) / 4))) true]) 0x86 2 with
      | none =>
        exact ⟨-1, [UsbEvent.control 0x40 0xB0 0xA6 n true,
          UsbEvent.bulk_out 0x02 (buf.take (2 * ((n + 3) / 4))) true,
          UsbEvent.bulk_in 0x86 2 none], buf, by simp [List.append_assoc], Or.inr rfl, hbuf,
          by simp [a6_slot_counts]⟩
      | some d =>
        refine ⟨0, [UsbEvent.control 0x40 0xB0 0xA6 n true,
          UsbEvent.bulk_out 0x02 (buf.take (2 * ((n + 3) / 4))) true,
          UsbEvent.bulk_in 0x86 2 (some d)], d.take 2 ++ buf.drop (d.take 2).length,
          by simp [List.append_assoc, hbuf], Or.inl rfl, ?_, by simp [a6_slot_counts]⟩
        simp [hbuf]

theorem do_ext_transfer_any (c : Cable) (s : Nat → Bool) (tdo0 : List Nat)
    (log : List UsbEvent) (xts : xpc_ext_transfer_state_t) (n m : Nat)
    (hn : n ≤ 15) (hm1 : 1 ≤ m) (hm15 : m ≤ 15)
    (hin : xts.in_bits = n) (hout : xts.out_bits = m) (hbuf : xts.buf.length = 8)
    (hw : Written s tdo0 xts.out xts.out_done)
    (hlen : (xts.out_done + m + 7) / 8 ≤ xts.out.length) :
    ∃ r xts1 evs, xpcu_do_ext_transfer c log xts = some (r, xts1, log ++ evs) ∧
      a6_slot_counts evs = [n] ∧ xts1.in_bits = 0 ∧ xts1.out_bits = 0 ∧
      xts1.buf.length = 8 ∧ xts1.out.length = tdo0.length ∧
      ((r = 0 ∧ xts1.out_done = xts.out_done + m ∧
          ∃ s1, Written s1 tdo0 xts1.out (xts.out_done + m)) ∨ r = -1) := by
  obtain ⟨r, evs, buf1, hshift, hr, hb1, hcnt⟩ := xpcu_shift_any c log n xts.buf hn hbuf
  have ho : 2 * ((m + 15) >>> 4) = 2 := by
    rw [Nat.shiftRight_eq_div_pow]; omega
  unfold xpcu_do_ext_transfer
  simp only [hin, hout, ho, hshift, Option.bind_eq_bind, Option.some_bind]
  rcases hr with rfl | rfl
  · obtain ⟨out1, s1, hdec, hw1⟩ := decode_words_some s tdo0 buf1 xts.out xts.out_done m
      (by omega) hm1 hm15 hw hlen
    exact ⟨0, ⟨0, 0, xts.out_done + m, out1, buf1⟩, evs, by simp [hdec], hcnt, rfl, rfl, hb1,
      hw1.1, Or.inl ⟨rfl, rfl, s1, hw1⟩⟩
  · exact ⟨-1, ⟨0, 0, xts.out_done, xts.out, buf1⟩, evs, by simp, hcnt, rfl, rfl, hb1, hw.1,
      Or.inr rfl⟩

theorem burst_count_succ_le (len i : Nat) (hi : i < len) : i / 15 + 1 ≤ burst_count len := by
  unfold burst_count; omega

theorem io_scan_for_any (c : Cable) (log0 : List UsbEvent) (tdi tms tdo0 : List Nat)
    (len : Nat) (htdi : (len + 7) / 8 ≤ tdi.length) (htms : (len + 7) / 8 ≤ tms.length)
    (htdo : (len + 7) / 8 ≤ tdo0.length) :
    ∀ (n i : Nat) (xts : xpc_ext_transfer_state_t) (log : List UsbEvent), i + n = len →
      ScanInvAny log0 tdo0 len i xts log →
      ∃ r xts1 log1, io_scan_for c tdi tms n i xts log = some (r, xts1, log1) ∧
        xts1.out.length = tdo0.length ∧
        ((r = none ∧ ScanInvAny log0 tdo0 len len xts1 log1) ∨
         (r = some (-1) ∧ ∃ evs k, log1 = log0 ++ evs ∧ k ≤ burst_count len ∧
            a6_slot_counts evs = (List.range k).map (burst_slots len))) := by
  intro n
  induction n with
  | zero =>
    intro i xts log hi hinv
    have : i = len := by omega
    subst this
    have hlen := hinv.2.2.2.2.1
    obtain ⟨s, hs⟩ := hlen
    exact ⟨none, xts, log, by simp [io_scan_for], hs.1, Or.inl ⟨rfl, hinv⟩⟩
  | succ n ih =>
    intro i xts log hi hinv
    obtain ⟨h1, h2, h3, h4, ⟨s, h5⟩, evs, h6, h7⟩ := hinv
    have hlt : i < len := by omega
    obtain ⟨buf1, hadd, hbl⟩ := add_bit_some xts
      (((tdi.getD (i / 8) 0) >>> (i &&& 7)) &&& 1) (((tms.getD (i / 8) 0) >>> (i &&& 7)) &&& 1)
      true (by omega) h4
    have hchunk : 4 * XPC_A6_CHUNKSIZE - 1 = 15 := rfl
    unfold io_scan_for
    simp only [rd_bit tdi i len hlt htdi, rd_bit tms i len hlt htms, Option.bind_eq_bind,
      Option.some_bind, hadd, hchunk, if_true, h1, h2]
    by_cases h14 : i % 15 = 14
    · have hb : (i + 1) / 15 = i / 15 + 1 := by omega
      have hr : burst_slots len (i / 15) = 15 := by
        unfold burst_slots burst_reals; rw [if_pos (by omega)]; decide
      obtain ⟨r, xts2, evs2, hdo, hcnt, hi2, ho2, hbl2, hol2, hres⟩ := do_ext_transfer_any c s
        tdo0 log ⟨i % 15 + 1, i % 15 + 1, xts.out_done, xts.out, buf1⟩ 15 15 (by omega)
        (by omega) (by omega) (by simp [h14]) (by simp [h14]) hbl (by simpa [h3] using h5)
        (by have := h5.1; simp only [h3]; omega)
      have hcount : a6_slot_counts (evs ++ evs2)
          = (List.range (i / 15 + 1)).map (burst_slots len) := by
        rw [a6_slot_counts_append, h7, hcnt, List.range_succ, List.map_append]
        simp [hr]
      rw [if_pos (by simp [h14]), hdo]
      simp only [Option.some_bind]
      rcases hres with ⟨rfl, hod, s1, hw1⟩ | rfl
      · rw [if_neg (by decide)]
        apply ih (i + 1) _ _ (by omega)
        refine ⟨by rw [hi2]; omega, by rw [ho2]; omega, by rw [hod]; simp only [h3]; omega,
          hbl2, ⟨s1, ?_⟩, evs ++ evs2, by rw [h6, List.append_assoc], by rw [hb]; exact hcount⟩
        rw [hb, show 15 * (i / 15 + 1) = 15 * (i / 15) + 15 by ring, ← h3]
        exact hw1
      · rw [if_pos (by decide)]
        exact ⟨some (-1), xts2, _, rfl, hol2, Or.inr ⟨rfl, evs ++ evs2, i / 15 + 1,
          by rw [h6, List.append_assoc], burst_count_succ_le len i hlt, hcount⟩⟩
    · have hb : (i + 1) / 15 = i / 15 := by omega
      have hm : (i + 1) % 15 = i % 15 + 1 := by omega
      rw [if_neg (by simp; omega)]
      apply ih (i + 1) _ _ (by omega)
      exact ⟨by simp [hm], by simp [hm], by simp [hb, h3], hbl, ⟨s, by rw [hb]; exact h5⟩, evs,
        h6, by rw [hb]; exact h7⟩

theorem io_scan_any (c : Cable) (log0 : List UsbEvent) (stack tdi tms tdo0 : List Nat)
    (len : Nat) (hstack : stack.length = 8)
    (htdi : (len + 7) / 8 ≤ tdi.length) (htms : (len + 7) / 8 ≤ tms.length)
    (htdo : (len + 7) / 8 ≤ tdo0.length) :
    ∃ r tdo1 evs k, io_scan c log0 stack tdi tms tdo0 len = some (r, tdo1, log0 ++ evs) ∧
      (r = 0 ∨ r = -1) ∧ tdo1.length = tdo0.length ∧ k ≤ burst_count len ∧
      a6_slot_counts evs = (List.range k).map (burst_slots len) ∧
      (r = 0 → k = burst_count len) := by
  have hinit : ScanInvAny log0 tdo0 len 0 ⟨0, 0, 0, tdo0, stack⟩ log0 := by
    refine ⟨rfl, rfl, rfl, hstack, ⟨fun _ => false, rfl, ?_, ?_, fun _ _ => rfl⟩, [], by simp,
      rfl⟩
    · intro i hi; simp at hi
    · intro i _ hi; simp at hi
  obtain ⟨r, xts, log, hfor, hol, hres⟩ :=
    io_scan_for_any c log0 tdi tms tdo0 len htdi htms htdo len 0 _ log0 (by omega) hinit
  unfold io_scan
  simp only [hfor, Option.bind_eq_bind, Option.some_bind]
  rcases hres with ⟨rfl, h1, h2, h3, h4, ⟨s, h5⟩, evs, h6, h7⟩ | ⟨rfl, evs, k, h6, hk, h7⟩
  · by_cases hr : len % 15 = 0
    · have hb : burst_count len = len / 15 := by unfold burst_count; omega
      refine ⟨0, xts.out, evs, len / 15, ?_, Or.inl rfl, hol, by omega, h7, fun _ => hb.symm⟩
      simp only [h1, hr, h6]
      rfl
    · have hb : burst_count len = len / 15 + 1 := by unfold burst_count; omega
      have hreal : burst_reals len (len / 15) = len % 15 := by
        unfold burst_reals; rw [if_neg (by omega)]; omega
      obtain ⟨xts2, hx2, hin2, hout2, hod2, hobuf2, hbl2⟩ :
          ∃ xts2, (if xts.in_bits &&& 3 = 0 then xpcu_add_bit_for_ext_transfer xts 0 0 false
              else some xts) = some xts2 ∧
            xts2.in_bits = slots_of (len % 15) ∧ xts2.out_bits = len % 15 ∧
            xts2.out_done = xts.out_done ∧ xts2.out = xts.out ∧ xts2.buf.length = 8 := by
        rw [and3, h1]
        by_cases h40 : len % 15 % 4 = 0
        · obtain ⟨buf1, hadd, hbl⟩ := add_bit_some xts 0 0 false (by omega) h4
          simp only [Bool.false_eq_true, if_false] at hadd
          refine ⟨⟨xts.in_bits + 1, xts.out_bits, xts.out_done, xts.out, buf1⟩,
            by rw [if_pos h40]; exact hadd, ?_, h2, rfl, rfl, hbl⟩
          simp [slots_of, h40, h1]
        · exact ⟨xts, by rw [if_neg h40], by simp [slots_of, h40, h1], h2, rfl, rfl, h4⟩
      have hs15 : slots_of (len % 15) ≤ 15 := by unfold slots_of; split <;> omega
      have hlen5 := h5.1
      obtain ⟨r, xts3, evs3, hdo, hcnt, _, _, _, hol3, hres⟩ := do_ext_transfer_any c s tdo0
        log xts2 (slots_of (len % 15)) (len % 15) hs15 (by omega) (by omega) hin2 hout2 hbl2
        (by rw [hobuf2, hod2, h3]; exact h5) (by rw [hobuf2, hod2, h3]; omega)
      have hjoin : ∀ f : xpc_ext_transfer_state_t → Option (Int × List Nat × List UsbEvent),
          (if xts.in_bits &&& 3 = 0 then (xpcu_add_bit_for_ext_transfer xts 0 0 false).bind f
            else f xts) = f xts2 := by
        intro f
        by_cases h : xts.in_bits &&& 3 = 0
        · rw [if_pos h] at hx2 ⊢
          rw [hx2, Option.some_bind]
        · rw [if_neg h] at hx2 ⊢
          cases hx2; rfl
      have hcount : a6_slot_counts (evs ++ evs3)
          = (List.range (len / 15 + 1)).map (burst_slots len) := by
        rw [a6_slot_counts_append, h7, hcnt, List.range_succ, List.map_append]
        simp [burst_slots, hreal]
      rw [if_pos (by omega), hjoin, hdo]
      simp only [Option.some_bind]
      rcases hres with ⟨rfl, _, _⟩ | rfl
      · refine ⟨0, xts3.out, evs ++ evs3, len / 15 + 1, ?_, Or.inl rfl, hol3, by omega, hcount,
          fun _ => hb.symm⟩
        rw [if_neg (by decide), h6, List.append_assoc]
      · refine ⟨-1, xts3.out, evs ++ evs3, len / 15 + 1, ?_, Or.inr rfl, hol3, by omega, hcount,
          fun h => absurd h (by decide)⟩
        rw [if_pos (by decide), h6, List.append_assoc]
  · exact ⟨-1, xts.out, evs, k, by rw [h6], Or.inr rfl, hol, hk, h7, fun h => absurd h (by decide)⟩

theorem burst_slots_facts (len b : Nat) (hb : b < burst_count len) :
    1 ≤ burst_slots len b ∧ burst_slots len b ≤ 15 ∧ burst_slots len b % 4 ≠ 0 ∧
    (b + 1 < burst_count len → burst_reals len b = 15 ∧ burst_slots len b = 15) ∧
    (b + 1 = burst_count len → burst_reals len b = len - 15 * b ∧
      (len - 15 * b = 4 → burst_slots len b = 5) ∧
      (len - 15 * b = 8 → burst_slots len b = 9) ∧
      (len - 15 * b = 12 → burst_slots len b = 13)) := by
  unfold burst_count at hb ⊢
  unfold burst_slots burst_reals slots_of
  refine ⟨?_, ?_, ?_, ?_, ?_⟩
  · split <;> split <;> omega
  · split <;> split <;> omega
  · split <;> split <;> omega
  · intro h; rw [if_pos (by omega)]; simp
  · intro h
    refine ⟨by split <;> omega, ?_, ?_, ?_⟩ <;> intro h4 <;> split <;> split <;> omega

theorem store_some (out : List Nat) (d v : Nat) (h : d >>> 3 < out.length) :
    ∃ out1, (if d &&& 7 = 0 then wr out (d >>> 3) v
        else (rd out (d >>> 3)).bind fun old => wr out (d >>> 3) (old ||| (v <<< (d &&& 7))))
      = some out1 ∧ out1.length = out.length := by
  by_cases h0 : d &&& 7 = 0
  · rw [if_pos h0, wr_some _ _ _ h]
    exact ⟨_, rfl, by simp⟩
  · obtain ⟨old, hold⟩ : ∃ old, rd out (d >>> 3) = some old := ⟨out[d >>> 3], by simp [rd, h]⟩
    rw [if_neg h0, hold, Option.some_bind, wr_some _ _ _ h]
    exact ⟨_, rfl, by simp⟩

theorem decode_word_total (rxw : Nat) :
    ∀ (r : Nat) (out : List Nat) (d : Nat), r ≤ 16 → (d + r + 7) / 8 ≤ out.length →
      ∃ out1, decode_word rxw r out d (2 ^ (16 - r)) = some (out1, d + r, 2 ^ 16, 0) ∧
        out1.length = out.length := by
  intro r
  induction r with
  | zero =>
    intro out d _ _
    exact ⟨out, by simp [decode_word], rfl⟩
  | succ r ih =>
    intro out d hr hlen
    have hd : d >>> 3 < out.length := by rw [shr3]; omega
    obtain ⟨out1, h1, hl1⟩ := store_some out d
      (if rxw &&& 2 ^ (16 - (r + 1)) ≠ 0 then 1 else 0) hd
    obtain ⟨out2, h2, hl2⟩ := ih out1 (d + 1) (by omega) (by omega)
    refine ⟨out2, ?_, by rw [hl2, hl1]⟩
    unfold decode_word
    have hm : 2 ^ (16 - (r + 1)) ≤ 1 <<< 15 := by
      rw [Nat.one_shiftLeft]; exact Nat.pow_le_pow_right (by norm_num) (by omega)
    have hsh : 2 ^ (16 - (r + 1)) <<< 1 = 2 ^ (16 - r) := by
      rw [Nat.shiftLeft_eq, ← pow_succ]; congr 1; omega
    simp only [if_pos hm, Option.bind_eq_bind, hsh]
    have hfin : (some out1).bind (fun y => decode_word rxw r y (d + 1) (2 ^ (16 - r)))
        = some (out2, d + (r + 1), 2 ^ 16, 0) := by
      rw [Option.some_bind, h2, show d + (r + 1) = d + 1 + r by omega]
    by_cases h0 : d &&& 7 = 0
    · rw [if_pos h0] at h1 ⊢
      rw [h1, hfin]
    · rw [if_neg h0] at h1 ⊢
      rw [← Option.bind_assoc, h1, hfin]

theorem decode_words_total (buf out : List Nat) (od m : Nat)
    (hbuf : 2 ≤ buf.length) (hm1 : 1 ≤ m) (hm : m ≤ 15)
    (hlen : (od + m + 7) / 8 ≤ out.length) :
    ∃ out1, decode_words buf m 0 m out od = some (out1, od + m) ∧
      out1.length = out.length := by
  obtain ⟨lo, hlo⟩ : ∃ lo, buf[0]? = some lo := ⟨buf[0], by simp⟩
  obtain ⟨hi, hhi⟩ : ∃ hi, buf[1]? = some hi := ⟨buf[1], by simp⟩
  obtain ⟨out1, hdec, hl⟩ := decode_word_total ((hi <<< 8) ||| lo) m out od (by omega) hlen
  refine ⟨out1, ?_, hl⟩
  obtain ⟨f, rfl⟩ : ∃ f, m = f + 1 := ⟨m - 1, by omega⟩
  have hmask : (if f + 1 ≥ 16 then 1 else 1 <<< (16 - (f + 1))) = 2 ^ (16 - (f + 1)) := by
    rw [if_neg (by omega), Nat.one_shiftLeft]
  unfold decode_words
  simp only [rd, Nat.zero_add, hlo, hhi, Option.bind_eq_bind, Option.some_bind, hmask, hdec,
    Nat.succ_ne_zero, if_false]
  unfold decode_words
  simp

theorem fails_only_last_append (l1 l2 : List UsbEvent)
    (h1 : l1.all (fun e => !e.failed) = true) (h2 : fails_only_last l2 = true) :
    fails_only_last (l1 ++ l2) = true := by
  unfold fails_only_last at h2 ⊢
  by_cases hn : l2 = []
  · subst hn
    rw [List.append_nil]
    rw [List.all_eq_true] at h1 ⊢
    intro e he
    exact h1 e (List.mem_of_mem_dropLast he)
  · rw [List.dropLast_append_of_ne_nil _ hn, List.all_append, h1, h2]
    rfl

theorem xpcu_shift_run (c : Cable) (log : List UsbEvent) (bits : Nat) (inp : List Nat)
    (out_len : Nat) (out : List Nat) (hin : 2 * ((bits + 3) / 4) ≤ inp.length)
    (hout : out_len ≤ out.length) :
    ∃ r evs out1, xpcu_shift c log bits inp out_len out = some (r, log ++ evs, out1) ∧
      out1.length = out.length ∧ starts_burst bits evs ∧ fails_only_last evs = true ∧
      ((r = 0 ∧ evs.all (fun e => !e.failed) = true) ∨
       (r = -1 ∧ evs.any (fun e => e.failed) = true ∧ out1 = out)) := by
  have hl : ¬ (inp.length < 2 * ((bits + 3) / 4)) := by omega
  have e : (0x06 ||| LIBUSB_ENDPOINT_IN) = 0x86 := by decide
  unfold xpcu_shift
  simp only [Nat.shiftRight_eq_div_pow, e, show (2 : Nat) ^ 2 = 4 by norm_num, if_neg hl]
  cases h1 : c.control log 0x40 0xB0 0xA6 bits with
  | false =>
    exact ⟨-1, [UsbEvent.control 0x40 0xB0 0xA6 bits false], out, by simp,
      rfl, ⟨false, [], rfl, by simp⟩, by simp [fails_only_last],
      Or.inr ⟨rfl, by simp [UsbEvent.failed], rfl⟩⟩
  | true =>
    cases h2 : c.bulk_out (log ++ [UsbEvent.control 0x40 0xB0 0xA6 bits true]) 0x02
        (inp.take (2 * ((bits + 3) / 4))) with
    | false =>
      exact ⟨-1, [UsbEvent.control 0x40 0xB0 0xA6 bits true,
        UsbEvent.bulk_out 0x02 (inp.take (2 * ((bits + 3) / 4))) false], out,
        by simp [List.append_assoc], rfl, ⟨true, _, rfl, by simp [UsbEvent.is_control]⟩,
        by simp [fails_only_last, UsbEvent.failed],
        Or.inr ⟨rfl, by simp [UsbEvent.failed], rfl⟩⟩
    | true =>
      by_cases hol : out_len > 0
      · cases h3 : c.bulk_in (log ++ [UsbEvent.control 0x40 0xB0 0xA6 bits true] ++
            [UsbEvent.bulk_out 0x02 (inp.take (2 * ((bits + 3) / 4))) true]) 0x86 out_len with
        | none =>
          exact ⟨-1, [UsbEvent.control 0x40 0xB0 0xA6 bits true,
            UsbEvent.bulk_out 0x02 (inp.take (2 * ((bits + 3) / 4))) true,
            UsbEvent.bulk_in 0x86 out_len none], out, by simp [List.append_assoc, hol], rfl,
            ⟨true, _, rfl, by simp [UsbEvent.is_control]⟩,
            by simp [fails_only_last, UsbEvent.failed],
            Or.inr ⟨rfl, by simp [UsbEvent.failed], rfl⟩⟩
        | some d =>
          refine ⟨0, [UsbEvent.control 0x40 0xB0 0xA6 bits true,
            UsbEvent.bulk_out 0x02 (inp.take (2 * ((bits + 3) / 4))) true,
            UsbEvent.bulk_in 0x86 out_len (some d)],
            d.take out_len ++ out.drop (d.take out_len).length,
            by simp [List.append_assoc, hol, Nat.not_lt.mpr hout], ?_,
            ⟨true, _, rfl, by simp [UsbEvent.is_control]⟩,
            by simp [fails_only_last, UsbEvent.failed],
            Or.inl ⟨rfl, by simp [UsbEvent.failed]⟩⟩
          simp only [List.length_append, List.length_take, List.length_drop]
          omega
      · exact ⟨0, [UsbEvent.control 0x40 0xB0 0xA6 bits true,
          UsbEvent.bulk_out 0x02 (inp.take (2 * ((bits + 3) / 4))) true], out,
          by simp [List.append_assoc, hol], rfl,
          ⟨true, _, rfl, by simp [UsbEvent.is_control]⟩,
          by simp [fails_only_last, UsbEvent.failed],
          Or.inl ⟨rfl, by simp [UsbEvent.failed]⟩⟩
theorem do_ext_transfer_run (c : Cable) (log : List UsbEvent)
    (xts : xpc_ext_transfer_state_t) (n m : Nat)
    (hn : n ≤ 15) (hm1 : 1 ≤ m) (hm15 : m ≤ 15)
    (hin : xts.in_bits = n) (hout : xts.out_bits = m) (hbuf : xts.buf.length = 8)
    (hlen : (xts.out_done + m + 7) / 8 ≤ xts.out.length) :
    ∃ r xts1 evs, xpcu_do_ext_transfer c log xts = some (r, xts1, log ++ evs) ∧
      starts_burst n evs ∧ fails_only_last evs = true ∧
      xts1.in_bits = 0 ∧ xts1.out_bits = 0 ∧ xts1.buf.length = 8 ∧
      xts1.out.length = xts.out.length ∧
      ((r = 0 ∧ evs.all (fun e => !e.failed) = true ∧ xts1.out_done = xts.out_done + m ∧
          ∀ s tdo0, Written s tdo0 xts.out xts.out_done →
            ∃ s1, Written s1 tdo0 xts1.out (xts.out_done + m)) ∨
       (r = -1 ∧ evs.any (fun e => e.failed) = true ∧ xts1.out_done = xts.out_done ∧
          xts1.out = xts.out)) := by
  obtain ⟨r, evs, buf1, hshift, hb1, hstart, hlast, hr⟩ :=
    xpcu_shift_run c log n xts.buf 2 xts.buf (by omega) (by omega)
  have ho : 2 * ((m + 15) >>> 4) = 2 := by
    rw [Nat.shiftRight_eq_div_pow]; omega
  unfold xpcu_do_ext_transfer
  simp only [hin, hout, ho, hshift, Option.bind_eq_bind, Option.some_bind]
  rcases hr with ⟨rfl, hall⟩ | ⟨rfl, hany, _⟩
  · obtain ⟨out1, hdec, hl1⟩ := decode_words_total buf1 xts.out xts.out_done m
      (by omega) hm1 hm15 hlen
    refine ⟨0, ⟨0, 0, xts.out_done + m, out1, buf1⟩, evs, by simp [hdec], hstart, hlast, rfl,
      rfl, by rw [hb1, hbuf], hl1, Or.inl ⟨rfl, hall, rfl, ?_⟩⟩
    intro s tdo0 hw
    obtain ⟨out2, s1, hdec2, hw2⟩ := decode_words_some s tdo0 buf1 xts.out xts.out_done m
      (by omega) hm1 hm15 hw hlen
    rw [hdec] at hdec2
    cases hdec2
    exact ⟨s1, hw2⟩
  · exact ⟨-1, ⟨0, 0, xts.out_done, xts.out, buf1⟩, evs, by simp, hstart, hlast, rfl, rfl,
      by rw [hb1, hbuf], rfl, Or.inr ⟨rfl, hany, rfl, rfl⟩⟩

theorem BurstLog_snoc (len : Nat) (bursts : List (List UsbEvent)) (x : List UsbEvent)
    (h : BurstLog len bursts) (hx : starts_burst (burst_slots len bursts.length) x) :
    BurstLog len (bursts ++ [x]) := by
  intro b y hb
  by_cases hlt : b < bursts.length
  · rw [List.getElem?_append_left hlt] at hb
    exact h b y hb
  · have hle : bursts.length ≤ b := by omega
    rw [List.getElem?_append_right hle] at hb
    have hb0 : b - bursts.length = 0 := by
      by_contra hne
      obtain ⟨j, hj⟩ : ∃ j, b - bursts.length = j + 1 := ⟨b - bursts.length - 1, by omega⟩
      rw [hj] at hb
      simp at hb
    rw [hb0] at hb
    simp at hb
    have : b = bursts.length := by omega
    subst this
    subst hb
    exact hx

theorem io_scan_for_run (c : Cable) (log0 : List UsbEvent) (tdi tms tdo0 : List Nat)
    (len : Nat) (htdi : (len + 7) / 8 ≤ tdi.length) (htms : (len + 7) / 8 ≤ tms.length)
    (htdo : (len + 7) / 8 ≤ tdo0.length) :
    ∀ (n i : Nat) (xts : xpc_ext_transfer_state_t) (log : List UsbEvent), i + n = len →
      ScanInvRun log0 tdo0 len i xts log →
      ∃ r xts1 log1, io_scan_for c tdi tms n i xts log = some (r, xts1, log1) ∧
        ((r = none ∧ ScanInvRun log0 tdo0 len len xts1 log1) ∨
         (r = some (-1) ∧ xts1.out.length = tdo0.length ∧
            (∀ k, (len + 7) / 8 ≤ k → xts1.out[k]? = tdo0[k]?) ∧
            ∃ bursts, log1 = log0 ++ bursts.flatten ∧ bursts.length ≤ burst_count len ∧
              BurstLog len bursts ∧ fails_only_last bursts.flatten = true ∧
              bursts.flatten.any (fun e => e.failed) = true)) := by
  intro n
  induction n with
  | zero =>
    intro i xts log hi hinv
    have : i = len := by omega
    subst this
    exact ⟨none, xts, log, by simp [io_scan_for], Or.inl ⟨rfl, hinv⟩⟩
  | succ n ih =>
    intro i xts log hi hinv
    obtain ⟨h1, h2, h3, h4, ⟨s, h5⟩, bursts, h6, h7, h8, h9⟩ := hinv
    have hlt : i < len := by omega
    obtain ⟨buf1, hadd, hbl⟩ := add_bit_some xts
      (((tdi.getD (i / 8) 0) >>> (i &&& 7)) &&& 1) (((tms.getD (i / 8) 0) >>> (i &&& 7)) &&& 1)
      true (by omega) h4
    have hchunk : 4 * XPC_A6_CHUNKSIZE - 1 = 15 := rfl
    unfold io_scan_for
    simp only [rd_bit tdi i len hlt htdi, rd_bit tms i len hlt htms, Option.bind_eq_bind,
      Option.some_bind, hadd, hchunk, if_true, h1, h2]
    by_cases h14 : i % 15 = 14
    · have hb : (i + 1) / 15 = i / 15 + 1 := by omega
      have hr : burst_slots len (i / 15) = 15 := by
        unfold burst_slots burst_reals; rw [if_pos (by omega)]; decide
      have hl5 := h5.1
      obtain ⟨r, xts2, evs2, hdo, hstart, hlast, hi2, ho2, hbl2, hol2, hres⟩ :=
        do_ext_transfer_run c log ⟨i % 15 + 1, i % 15 + 1, xts.out_done, xts.out, buf1⟩ 15 15
          (by omega) (by omega) (by omega) (by simp [h14]) (by simp [h14]) hbl
          (by simp only [h3]; omega)
      have hlog : log ++ evs2 = log0 ++ (bursts ++ [evs2]).flatten := by
        rw [h6, List.flatten_append, List.append_assoc]; simp
      have hbl3 : BurstLog len (bursts ++ [evs2]) :=
        BurstLog_snoc len bursts evs2 h8 (by rw [h7, hr]; exact hstart)
      rw [if_pos (by simp [h14]), hdo]
      simp only [Option.some_bind]
      rcases hres with ⟨rfl, hall, hod, hw⟩ | ⟨rfl, hany, hod, hout⟩
      · rw [if_neg (by decide)]
        obtain ⟨s1, hw1⟩ := hw s tdo0 (by simpa [h3] using h5)
        apply ih (i + 1) _ _ (by omega)
        refine ⟨by rw [hi2]; omega, by rw [ho2]; omega, by rw [hod]; simp only [h3]; omega,
          hbl2, ⟨s1, ?_⟩, bursts ++ [evs2], hlog, by simp [h7, hb], hbl3, ?_⟩
        · rw [hb, show 15 * (i / 15 + 1) = 15 * (i / 15) + 15 by ring, ← h3]
          exact hw1
        · rw [List.flatten_append, List.all_append, h9]
          simpa using hall
      · rw [if_pos (by decide)]
        refine ⟨some (-1), xts2, _, rfl, Or.inr ⟨rfl, by rw [hol2]; exact h5.1, ?_,
          bursts ++ [evs2], hlog, ?_, hbl3, ?_, ?_⟩⟩
        · intro k hk
          rw [hout]
          exact h5.2.2.2 k (by omega)
        · have := burst_count_succ_le len i hlt
          simp [h7]; omega
        · rw [List.flatten_append]
          exact fails_only_last_append _ _ h9 (by simpa using hlast)
        · rw [List.flatten_append, List.any_append]
          simp only [List.flatten_cons, List.flatten_nil, List.append_nil, hany, Bool.or_true]
    · have hb : (i + 1) / 15 = i / 15 := by omega
      have hm : (i + 1) % 15 = i % 15 + 1 := by omega
      rw [if_neg (by simp; omega)]
      apply ih (i + 1) _ _ (by omega)
      exact ⟨by simp [hm], by simp [hm], by simp [hb, h3], hbl, ⟨s, by rw [hb]; exact h5⟩,
        bursts, h6, by rw [hb]; exact h7, h8, h9⟩
theorem io_scan_run (c : Cable) (log0 : List UsbEvent) (stack tdi tms tdo0 : List Nat)
    (len : Nat) (hstack : stack.length = 8)
    (htdi : (len + 7) / 8 ≤ tdi.length) (htms : (len + 7) / 8 ≤ tms.length)
    (htdo : (len + 7) / 8 ≤ tdo0.length) :
    ∃ r tdo1 bursts, io_scan c log0 stack tdi tms tdo0 len
        = some (r, tdo1, log0 ++ bursts.flatten) ∧
      tdo1.length = tdo0.length ∧ (∀ k, (len + 7) / 8 ≤ k → tdo1[k]? = tdo0[k]?) ∧
      bursts.length ≤ burst_count len ∧ BurstLog len bursts ∧
      fails_only_last bursts.flatten = true ∧
      ((r = 0 ∧ bursts.flatten.all (fun e => !e.failed) = true ∧
          bursts.length = burst_count len) ∨
       (r = -1 ∧ bursts.flatten.any (fun e => e.failed) = true)) := by
  have hinit : ScanInvRun log0 tdo0 len 0 ⟨0, 0, 0, tdo0, stack⟩ log0 := by
    refine ⟨rfl, rfl, rfl, hstack, ⟨fun _ => false, rfl, ?_, ?_, fun _ _ => rfl⟩, [], by simp,
      rfl, ?_, rfl⟩
    · intro i hi; simp at hi
    · intro i _ hi; simp at hi
    · intro b x hb; simp at hb
  obtain ⟨r, xts, log, hfor, hres⟩ :=
    io_scan_for_run c log0 tdi tms tdo0 len htdi htms htdo len 0 _ log0 (by omega) hinit
  unfold io_scan
  simp only [hfor, Option.bind_eq_bind, Option.some_bind]
  rcases hres with ⟨rfl, h1, h2, h3, h4, ⟨s, h5⟩, bursts, h6, h7, h8, h9⟩ |
    ⟨rfl, hol, hun, bursts, h6, hk, h8, hlast, hany⟩
  · by_cases hr : len % 15 = 0
    · have hb : burst_count len = len / 15 := by unfold burst_count; omega
      refine ⟨0, xts.out, bursts, ?_, h5.1, ?_, by omega, h8, ?_, Or.inl ⟨rfl, h9, by omega⟩⟩
      · simp only [h1, hr, h6]
        rfl
      · intro k hk
        exact h5.2.2.2 k (by omega)
      · have := fails_only_last_append _ [] h9 rfl
        simpa using this
    · have hb : burst_count len = len / 15 + 1 := by unfold burst_count; omega
      have hreal : burst_reals len (len / 15) = len % 15 := by
        unfold burst_reals; rw [if_neg (by omega)]; omega
      obtain ⟨xts2, hx2, hin2, hout2, hod2, hobuf2, hbl2⟩ :
          ∃ xts2, (if xts.in_bits &&& 3 = 0 then xpcu_add_bit_for_ext_transfer xts 0 0 false
              else some xts) = some xts2 ∧
            xts2.in_bits = slots_of (len % 15) ∧ xts2.out_bits = len % 15 ∧
            xts2.out_done = xts.out_done ∧ xts2.out = xts.out ∧ xts2.buf.length = 8 := by
        rw [and3, h1]
        by_cases h40 : len % 15 % 4 = 0
        · obtain ⟨buf1, hadd, hbl⟩ := add_bit_some xts 0 0 false (by omega) h4
          simp only [Bool.false_eq_true, if_false] at hadd
          refine ⟨⟨xts.in_bits + 1, xts.out_bits, xts.out_done, xts.out, buf1⟩,
            by rw [if_pos h40]; exact hadd, ?_, h2, rfl, rfl, hbl⟩
          simp [slots_of, h40, h1]
        · exact ⟨xts, by rw [if_neg h40], by simp [slots_of, h40, h1], h2, rfl, rfl, h4⟩
      have hs15 : slots_of (len % 15) ≤ 15 := by unfold slots_of; split <;> omega
      have hlen5 := h5.1
      obtain ⟨r, xts3, evs3, hdo, hstart, hlast, _, _, _, hol3, hres⟩ :=
        do_ext_transfer_run c log xts2 (slots_of (len % 15)) (len % 15) hs15 (by omega)
          (by omega) hin2 hout2 hbl2 (by rw [hobuf2, hod2, h3]; omega)
      have hjoin : ∀ f : xpc_ext_transfer_state_t → Option (Int × List Nat × List UsbEvent),
          (if xts.in_bits &&& 3 = 0 then (xpcu_add_bit_for_ext_transfer xts 0 0 false).bind f
            else f xts) = f xts2 := by
        intro f
        by_cases h : xts.in_bits &&& 3 = 0
        · rw [if_pos h] at hx2 ⊢
          rw [hx2, Option.some_bind]
        · rw [if_neg h] at hx2 ⊢
          cases hx2; rfl
      have hlog : log ++ evs3 = log0 ++ (bursts ++ [evs3]).flatten := by
        rw [h6, List.flatten_append, List.append_assoc]; simp
      have hbl3 : BurstLog len (bursts ++ [evs3]) :=
        BurstLog_snoc len bursts evs3 h8 (by
          rw [h7]; unfold burst_slots; rw [hreal]; exact hstart)
      have hlast3 : fails_only_last (bursts ++ [evs3]).flatten = true := by
        rw [List.flatten_append]
        exact fails_only_last_append _ _ h9 (by simpa using hlast)
      rw [if_pos (by omega), hjoin, hdo]
      simp only [Option.some_bind]
      rcases hres with ⟨rfl, hall, hod, hw⟩ | ⟨rfl, hany, hod, hout⟩
      · obtain ⟨s1, hw1⟩ := hw s tdo0 (by rw [hobuf2, hod2, h3]; exact h5)
        have hd : xts2.out_done + len % 15 = len := by rw [hod2, h3]; omega
        rw [hd] at hw1
        refine ⟨0, xts3.out, bursts ++ [evs3], ?_, hw1.1, hw1.2.2.2, by simp [h7]; omega, hbl3,
          hlast3, Or.inl ⟨rfl, ?_, by simp [h7]; omega⟩⟩
        · rw [if_neg (by decide), hlog]
        · rw [List.flatten_append, List.all_append, h9]
          simpa using hall
      · refine ⟨-1, xts3.out, bursts ++ [evs3], ?_, by rw [hout, hobuf2]; exact h5.1, ?_,
          by simp [h7]; omega, hbl3, hlast3, Or.inr ⟨rfl, ?_⟩⟩
        · rw [if_pos (by decide), hlog]
        · intro k hk
          rw [hout, hobuf2]
          exact h5.2.2.2 k (by omega)
        · rw [List.flatten_append, List.any_append]
          simp only [List.flatten_cons, List.flatten_nil, List.append_nil, hany, Bool.or_true]
  · exact ⟨-1, xts.out, bursts, by rw [h6], hol, hun, hk, h8, hlast, Or.inr ⟨rfl, hany⟩⟩

/-! ## Lemmas: `out_done` in 32 bits -/

theorem decode_word_int_eq (rxw : Nat) :
    ∀ (r : Nat) (out : List Nat) (d mask : Nat), d + r ≤ 2147483648 →
      decode_word_int rxw r out d mask = decode_word rxw r out d mask := by
  intro r
  induction r with
  | zero => intro out d mask _; rfl
  | succ r ih =>
    intro out d mask h
    have ih1 : ∀ o m, decode_word_int rxw r o (d + 1) m = decode_word rxw r o (d + 1) m :=
      fun o m => ih o (d + 1) m (by omega)
    unfold decode_word_int decode_word
    by_cases hm : mask ≤ 1 <<< 15
    · rw [if_pos hm, if_pos hm, if_neg (by omega), Nat.mod_eq_of_lt (by omega)]
      simp only [ih1]
    · rw [if_neg hm, if_neg hm]

theorem decode_word_sum (rxw : Nat) :
    ∀ (r : Nat) (out : List Nat) (d mask : Nat) (o1 : List Nat) (d1 m1 r1 : Nat),
      decode_word rxw r out d mask = some (o1, d1, m1, r1) → d1 + r1 = d + r := by
  intro r
  induction r with
  | zero =>
    intro out d mask o1 d1 m1 r1 h
    simp only [decode_word, Option.some.injEq, Prod.mk.injEq] at h
    omega
  | succ r ih =>
    intro out d mask o1 d1 m1 r1 h
    unfold decode_word at h
    by_cases hm : mask ≤ 1 <<< 15
    · rw [if_pos hm] at h
      simp only [Option.bind_eq_bind] at h
      by_cases h0 : d &&& 7 = 0
      · rw [if_pos h0] at h
        rcases hw : wr out (d >>> 3) (if rxw &&& mask ≠ 0 then 1 else 0) with _ | o2
        · rw [hw] at h; simp at h
        · rw [hw, Option.some_bind] at h
          have := ih _ _ _ _ _ _ _ h
          omega
      · rw [if_neg h0] at h
        rcases hr : rd out (d >>> 3) with _ | old
        · rw [hr] at h; simp at h
        · rw [hr] at h
          simp only [Option.some_bind] at h
          rcases hw : wr out (d >>> 3)
              (old ||| ((if rxw &&& mask ≠ 0 then 1 else 0) <<< (d &&& 7))) with _ | o2
          · rw [hw] at h; simp at h
          · rw [hw, Option.some_bind] at h
            have := ih _ _ _ _ _ _ _ h
            omega
    · rw [if_neg hm] at h
      simp only [Option.some.injEq, Prod.mk.injEq] at h
      omega

theorem decode_words_int_eq (buf : List Nat) :
    ∀ (fuel idx rem : Nat) (out : List Nat) (d : Nat), d + rem ≤ 2147483648 →
      decode_words_int buf fuel idx rem out d = decode_words buf fuel idx rem out d := by
  intro fuel
  induction fuel with
  | zero =>
    intro idx rem out d _
    unfold decode_words_int decode_words
    by_cases h0 : rem = 0
    · rw [if_pos h0]
    · rw [if_neg h0]
  | succ fuel ih =>
    intro idx rem out d h
    unfold decode_words_int decode_words
    by_cases h0 : rem = 0
    · rw [if_pos h0, if_pos h0]
    · rw [if_neg h0, if_neg h0]
      simp only [Option.bind_eq_bind]
      rcases rd buf idx with _ | lo
      · simp only [Option.none_bind]
      · rcases rd buf (idx + 1) with _ | hi
        · simp only [Option.some_bind, Option.none_bind]
        · simp only [Option.some_bind]
          rw [decode_word_int_eq _ _ _ _ _ h]
          rcases hd : decode_word ((hi <<< 8) ||| lo) rem out d
              (if rem ≥ 16 then 1 else 1 <<< (16 - rem)) with _ | ⟨o1, d1, m1, r1⟩
          · simp only [Option.none_bind]
          · have := decode_word_sum _ _ _ _ _ _ _ _ _ hd
            simp only [Option.some_bind]
            exact ih _ _ _ _ (by omega)

theorem decode_words_done (buf : List Nat) :
    ∀ (fuel idx rem : Nat) (out : List Nat) (d : Nat) (o1 : List Nat) (d1 : Nat),
      decode_words buf fuel idx rem out d = some (o1, d1) → d1 = d + rem := by
  intro fuel
  induction fuel with
  | zero =>
    intro idx rem out d o1 d1 h
    unfold decode_words at h
    by_cases h0 : rem = 0
    · rw [if_pos h0] at h
      simp only [Option.some.injEq, Prod.mk.injEq] at h
      omega
    · rw [if_neg h0] at h; simp at h
  | succ fuel ih =>
    intro idx rem out d o1 d1 h
    unfold decode_words at h
    by_cases h0 : rem = 0
    · rw [if_pos h0] at h
      simp only [Option.some.injEq, Prod.mk.injEq] at h
      omega
    · rw [if_neg h0] at h
      simp only [Option.bind_eq_bind] at h
      rcases hlo : rd buf idx with _ | lo
      · rw [hlo] at h; simp at h
      · rcases hhi : rd buf (idx + 1) with _ | hi
        · rw [hlo, hhi] at h; simp at h
        · rw [hlo, hhi] at h
          simp only [Option.some_bind] at h
          rcases hd : decode_word ((hi <<< 8) ||| lo) rem out d
              (if rem ≥ 16 then 1 else 1 <<< (16 - rem)) with _ | ⟨o2, d2, m2, r2⟩
          · rw [hd] at h; simp at h
          · rw [hd] at h
            simp only [Option.some_bind] at h
            have h1 := decode_word_sum _ _ _ _ _ _ _ _ _ hd
            have h2 := ih _ _ _ _ _ _ h
            omega

theorem do_ext_transfer_int_eq (c : Cable) (log : List UsbEvent)
    (xts : xpc_ext_transfer_state_t) (h : xts.out_done + xts.out_bits ≤ 2147483648) :
    xpcu_do_ext_transfer_int c log xts = xpcu_do_ext_transfer c log xts := by
  unfold xpcu_do_ext_transfer_int xpcu_do_ext_transfer
  simp only [decode_words_int_eq _ _ _ _ _ _ h]

theorem do_ext_transfer_counters (c : Cable) (log : List UsbEvent)
    (xts : xpc_ext_transfer_state_t) (r : Int) (y : xpc_ext_transfer_state_t)
    (log1 : List UsbEvent) (h : xpcu_do_ext_transfer c log xts = some (r, y, log1)) :
    y.in_bits = 0 ∧ y.out_bits = 0 ∧
      (r = 0 → y.out_done = xts.out_done + xts.out_bits) := by
  unfold xpcu_do_ext_transfer at h
  simp only [Option.bind_eq_bind] at h
  rcases hs : xpcu_shift c log xts.in_bits xts.buf (2 * ((xts.out_bits + 15) >>> 4)) xts.buf
    with _ | ⟨r0, l0, b0⟩
  · rw [hs] at h; simp at h
  · rw [hs] at h
    simp only [Option.some_bind] at h
    by_cases h0 : r0 = 0
    · rw [if_pos h0] at h
      rcases hd : decode_words b0 xts.out_bits 0 xts.out_bits xts.out xts.out_done with
        _ | ⟨o1, d1⟩
      · rw [hd] at h; simp at h
      · rw [hd] at h
        simp only [Option.some_bind, Option.some.injEq, Prod.mk.injEq] at h
        obtain ⟨_, rfl, _⟩ := h
        exact ⟨rfl, rfl, fun _ => decode_words_done _ _ _ _ _ _ _ _ hd⟩
    · rw [if_neg h0] at h
      simp only [Option.some.injEq, Prod.mk.injEq] at h
      obtain ⟨hr, rfl, _⟩ := h
      exact ⟨rfl, rfl, fun hz => absurd (hr.trans hz) h0⟩

theorem add_bit_counters (xts y : xpc_ext_transfer_state_t) (tdi tms : Nat) (real : Bool)
    (h : xpcu_add_bit_for_ext_transfer xts tdi tms real = some y) :
    y.in_bits = xts.in_bits + 1 ∧
      y.out_bits = (if real then xts.out_bits + 1 else xts.out_bits) ∧
      y.out_done = xts.out_done := by
  unfold xpcu_add_bit_for_ext_transfer at h
  cases real with
  | false =>
    by_cases hb : xts.in_bits &&& 3 = 0
    · simp only [hb, if_true, Bool.false_eq_true, if_false, Option.bind_eq_bind,
        Option.bind_eq_some, Option.some.injEq] at h
      obtain ⟨_, _, _, _, h⟩ := h
      subst h
      exact ⟨rfl, rfl, rfl⟩
    · simp only [hb, if_false, Bool.false_eq_true, Option.bind_eq_bind, Option.some_bind,
        Option.some.injEq] at h
      subst h
      exact ⟨rfl, rfl, rfl⟩
  | true =>
    by_cases hb : xts.in_bits &&& 3 = 0
    · simp only [hb, if_true, Option.bind_eq_bind, Option.bind_eq_some,
        Option.some.injEq] at h
      obtain ⟨_, _, _, _, _, _, _, _, _, _, _, _, h⟩ := h
      subst h
      exact ⟨rfl, rfl, rfl⟩
    · simp only [hb, if_false, if_true, Option.bind_eq_bind, Option.some_bind,
        Option.bind_eq_some, Option.some.injEq] at h
      obtain ⟨_, _, _, _, _, _, _, _, h⟩ := h
      subst h
      exact ⟨rfl, rfl, rfl⟩

theorem xpcu_shift_ret (c : Cable) (log : List UsbEvent) (bits : Nat) (inp : List Nat)
    (out_len : Nat) (out : List Nat) (r : Int) (log1 : List UsbEvent) (out1 : List Nat)
    (h : xpcu_shift c log bits inp out_len out = some (r, log1, out1)) : r = 0 ∨ r = -1 := by
  unfold xpcu_shift at h
  simp only at h
  split at h
  · simp only [Option.some.injEq, Prod.mk.injEq] at h
    exact Or.inr h.1.symm
  · split at h
    · simp at h
    · split at h
      · simp only [Option.some.injEq, Prod.mk.injEq] at h
        exact Or.inr h.1.symm
      · split at h
        · split at h
          · simp only [Option.some.injEq, Prod.mk.injEq] at h
            exact Or.inr h.1.symm
          · split at h
            · simp at h
            · simp only [Option.some.injEq, Prod.mk.injEq] at h
              exact Or.inl h.1.symm
        · simp only [Option.some.injEq, Prod.mk.injEq] at h
          exact Or.inl h.1.symm

theorem do_ext_transfer_ret (c : Cable) (log : List UsbEvent)
    (xts : xpc_ext_transfer_state_t) (r : Int) (y : xpc_ext_transfer_state_t)
    (log1 : List UsbEvent) (h : xpcu_do_ext_transfer c log xts = some (r, y, log1)) :
    r = 0 ∨ r = -1 := by
  unfold xpcu_do_ext_transfer at h
  simp only [Option.bind_eq_bind] at h
  rcases hs : xpcu_shift c log xts.in_bits xts.buf (2 * ((xts.out_bits + 15) >>> 4)) xts.buf
    with _ | ⟨r0, l0, b0⟩
  · rw [hs] at h; simp at h
  · have hr := xpcu_shift_ret _ _ _ _ _ _ _ _ _ hs
    rw [hs] at h
    simp only [Option.some_bind] at h
    by_cases h0 : r0 = 0
    · rw [if_pos h0] at h
      rcases hd : decode_words b0 xts.out_bits 0 xts.out_bits xts.out xts.out_done with
        _ | ⟨o1, d1⟩
      · rw [hd] at h; simp at h
      · rw [hd] at h
        simp only [Option.some_bind, Option.some.injEq, Prod.mk.injEq] at h
        rw [← h.1]; exact hr
    · rw [if_neg h0] at h
      simp only [Option.some.injEq, Prod.mk.injEq] at h
      rw [← h.1]; exact hr

theorem io_scan_for_int_eq (c : Cable) (tdi tms : List Nat) :
    ∀ (n i : Nat) (xts : xpc_ext_transfer_state_t) (log : List UsbEvent),
      xts.in_bits = i % 15 → xts.out_bits = i % 15 → xts.out_done = 15 * (i / 15) →
      15 * ((i + n) / 15) ≤ 2147483648 →
      io_scan_for_int c tdi tms n i xts log = io_scan_for c tdi tms n i xts log ∧
      ∀ y log1, io_scan_for c tdi tms n i xts log = some (none, y, log1) →
        y.in_bits = (i + n) % 15 ∧ y.out_bits = (i + n) % 15 ∧
        y.out_done = 15 * ((i + n) / 15) := by
  intro n
  induction n with
  | zero =>
    intro i xts log h1 h2 h3 _
    refine ⟨by simp only [io_scan_for_int, io_scan_for], ?_⟩
    intro y log1 h
    simp only [io_scan_for, Option.some.injEq, Prod.mk.injEq, true_and] at h
    obtain ⟨rfl, _⟩ := h
    exact ⟨h1, h2, h3⟩
  | succ n ih =>
    intro i xts log h1 h2 h3 hb
    have hchunk : 4 * XPC_A6_CHUNKSIZE - 1 = 15 := rfl
    unfold io_scan_for_int io_scan_for
    simp only [Option.bind_eq_bind, hchunk]
    rcases rd tdi (i >>> 3) with _ | a
    · exact ⟨by simp only [Option.none_bind], fun y log1 h => by simp at h⟩
    · rcases rd tms (i >>> 3) with _ | b
      · exact ⟨by simp only [Option.some_bind, Option.none_bind],
          fun y log1 h => by simp at h⟩
      · simp only [Option.some_bind]
        rcases ha : xpcu_add_bit_for_ext_transfer xts ((a >>> (i &&& 7)) &&& 1)
            ((b >>> (i &&& 7)) &&& 1) true with _ | x1
        · exact ⟨by simp only [Option.none_bind], fun y log1 h => by simp at h⟩
        · obtain ⟨c1, c2, c3⟩ := add_bit_counters _ _ _ _ _ ha
          simp only [if_true] at c2
          simp only [Option.some_bind]
          by_cases h15 : x1.in_bits = 15
          · have hi14 : i % 15 = 14 := by omega
            rw [if_pos h15, if_pos h15,
              do_ext_transfer_int_eq c log x1 (by rw [c3, c2, h3, h2]; omega)]
            rcases hd : xpcu_do_ext_transfer c log x1 with _ | ⟨r, x2, l2⟩
            · exact ⟨by simp only [Option.none_bind], fun y log1 h => by simp at h⟩
            · obtain ⟨d1, d2, d3⟩ := do_ext_transfer_counters _ _ _ _ _ _ hd
              have hr := do_ext_transfer_ret _ _ _ _ _ _ hd
              simp only [Option.some_bind]
              rcases hr with rfl | rfl
              · rw [if_neg (by decide), if_neg (by decide)]
                have hod : x2.out_done = 15 * ((i + 1) / 15) := by
                  rw [d3 rfl, c3, c2, h3, h2]; omega
                have := ih (i + 1) x2 l2 (by rw [d1]; omega) (by rw [d2]; omega) hod
                  (by rw [show i + 1 + n = i + (n + 1) by omega]; exact hb)
                rw [show i + 1 + n = i + (n + 1) by omega] at this
                exact this
              · rw [if_pos (by decide), if_pos (by decide)]
                exact ⟨rfl, fun y log1 h => by simp at h⟩
          · rw [if_neg h15, if_neg h15]
            have := ih (i + 1) x1 log (by rw [c1, h1]; omega) (by rw [c2, h2]; omega)
              (by rw [c3, h3]; omega)
              (by rw [show i + 1 + n = i + (n + 1) by omega]; exact hb)
            rw [show i + 1 + n = i + (n + 1) by omega] at this
            exact this

theorem io_scan_int_eq (c : Cable) (log : List UsbEvent) (stack tdi tms tdo : List Nat)
    (len : Nat) (hlen : len ≤ 2147483648) :
    io_scan_int c log stack tdi tms tdo len = io_scan c log stack tdi tms tdo len := by
  obtain ⟨heq, hcnt⟩ := io_scan_for_int_eq c tdi tms len 0 ⟨0, 0, 0, tdo, stack⟩ log rfl rfl rfl
    (by omega)
  unfold io_scan_int io_scan
  simp only [Option.bind_eq_bind, heq]
  rcases hf : io_scan_for c tdi tms len 0 ⟨0, 0, 0, tdo, stack⟩ log with _ | ⟨early, x1, l1⟩
  · simp only [Option.none_bind]
  · simp only [Option.some_bind]
    cases early with
    | some v => simp only
    | none =>
      obtain ⟨c1, c2, c3⟩ := hcnt x1 l1 hf
      simp only [Nat.zero_add] at c1 c2 c3
      simp only
      by_cases hpos : x1.in_bits > 0
      · rw [if_pos hpos, if_pos hpos]
        by_cases h3 : x1.in_bits &&& 3 = 0
        · simp only [if_pos h3]
          rcases ha : xpcu_add_bit_for_ext_transfer x1 0 0 false with _ | x2
          · simp only [Option.none_bind]
          · obtain ⟨_, a2, a3⟩ := add_bit_counters _ _ _ _ _ ha
            simp only [Bool.false_eq_true, if_false] at a2
            simp only [Option.some_bind]
            rw [do_ext_transfer_int_eq c l1 x2 (by rw [a3, a2, c3, c2]; omega)]
        · simp only [if_neg h3, Option.some_bind]
          rw [do_ext_transfer_int_eq c l1 x1 (by rw [c3, c2]; omega)]
      · rw [if_neg hpos, if_neg hpos]

theorem decode_word_int_overflow (rxw : Nat) :
    ∀ (r : Nat) (out : List Nat) (d k : Nat), d ≤ 2147483648 → 2147483648 < d + r →
      k + r ≤ 16 → 268435456 ≤ out.length →
      decode_word_int rxw r out d (2 ^ k) = none := by
  intro r
  induction r with
  | zero => intro out d k h1 h2; omega
  | succ r ih =>
    intro out d k h1 h2 hk hl
    have hm : 2 ^ k ≤ 1 <<< 15 := by
      rw [Nat.one_shiftLeft]; exact Nat.pow_le_pow_right (by norm_num) (by omega)
    have hsh : 2 ^ k <<< 1 = 2 ^ (k + 1) := by
      rw [Nat.shiftLeft_eq, ← pow_succ]
    unfold decode_word_int
    rw [if_pos hm]
    by_cases hd : 2147483648 ≤ d
    · rw [if_pos hd]
    · rw [if_neg hd]
      have hidx : d >>> 3 < out.length := by rw [shr3]; omega
      obtain ⟨out1, hs1, hl1⟩ := store_some out d (if rxw &&& 2 ^ k ≠ 0 then 1 else 0) hidx
      have hnext := ih out1 (d + 1) (k + 1) (by omega) (by omega) (by omega) (by omega)
      simp only [Option.bind_eq_bind, hsh, Nat.mod_eq_of_lt (show d + 1 < 4294967296 by omega)]
      have hfin : (some out1).bind (fun y => decode_word_int rxw r y (d + 1) (2 ^ (k + 1)))
          = none := by
        rw [Option.some_bind, hnext]
      by_cases h0 : d &&& 7 = 0
      · rw [if_pos h0] at hs1 ⊢
        rw [hs1, hfin]
      · rw [if_neg h0] at hs1 ⊢
        rw [← Option.bind_assoc, hs1, hfin]

theorem io_scan_int_overflow (c : Cable) (hc : CableOk c) (log0 : List UsbEvent)
    (stack tdi tms tdo0 : List Nat) (len : Nat) (hstack : stack.length = 8)
    (htdi : (len + 7) / 8 ≤ tdi.length) (htms : (len + 7) / 8 ≤ tms.length)
    (htdo : (len + 7) / 8 ≤ tdo0.length)
    (hlo : 2147483648 < len) (hhi : len ≤ 2147483654) :
    io_scan_int c log0 stack tdi tms tdo0 len = none := by
  obtain ⟨heq, _⟩ := io_scan_for_int_eq c tdi tms len 0 ⟨0, 0, 0, tdo0, stack⟩ log0 rfl rfl rfl
    (by omega)
  have hinit : ScanInv c log0 tdi tms tdo0 len 0 ⟨0, 0, 0, tdo0, stack⟩ log0 := by
    refine ⟨rfl, rfl, rfl, hstack, ?_, by simp [scan_trace], rfl, ?_, ?_, fun _ _ => rfl⟩
    · intro k hk; simp at hk
    · intro i hi; simp at hi
    · intro i _ hi; simp at hi
  obtain ⟨xts, log, hfor, h1, h2, h3, h4, _, _, h7⟩ :=
    io_scan_for_ok c hc log0 tdi tms tdo0 len htdi htms htdo len 0 _ log0 (by omega) hinit
  have hol := h7.1
  obtain ⟨xts2, hx2, hin2, hout2, hod2, hobuf2, hbl2⟩ :
      ∃ xts2, (if xts.in_bits &&& 3 = 0 then xpcu_add_bit_for_ext_transfer xts 0 0 false
          else some xts) = some xts2 ∧
        xts2.in_bits = slots_of (len % 15) ∧ xts2.out_bits = len % 15 ∧
        xts2.out_done = xts.out_done ∧ xts2.out = xts.out ∧ xts2.buf.length = 8 := by
    rw [and3, h1]
    by_cases h40 : len % 15 % 4 = 0
    · obtain ⟨buf1, hadd, hbl⟩ := add_bit_some xts 0 0 false (by omega) h4
      simp only [Bool.false_eq_true, if_false] at hadd
      refine ⟨⟨xts.in_bits + 1, xts.out_bits, xts.out_done, xts.out, buf1⟩,
        by rw [if_pos h40]; exact hadd, ?_, h2, rfl, rfl, hbl⟩
      simp [slots_of, h40, h1]
    · exact ⟨xts, by rw [if_neg h40], by simp [slots_of, h40, h1], h2, rfl, rfl, h4⟩
  have hs15 : slots_of (len % 15) ≤ 15 := by unfold slots_of; split <;> omega
  have hjoin : ∀ f : xpc_ext_transfer_state_t → Option (Int × List Nat × List UsbEvent),
      (if xts.in_bits &&& 3 = 0 then (xpcu_add_bit_for_ext_transfer xts 0 0 false).bind f
        else f xts) = f xts2 := by
    intro f
    by_cases h : xts.in_bits &&& 3 = 0
    · rw [if_pos h] at hx2 ⊢
      rw [hx2, Option.some_bind]
    · rw [if_neg h] at hx2 ⊢
      cases hx2; rfl
  have hdo : xpcu_do_ext_transfer_int c log xts2 = none := by
    obtain ⟨lo, hi, _, _, _, hshift⟩ :=
      xpcu_shift_ok c hc log (slots_of (len % 15)) xts2.buf hs15 hbl2
    have ho : 2 * ((len % 15 + 15) >>> 4) = 2 := by
      rw [Nat.shiftRight_eq_div_pow]; omega
    obtain ⟨f, hf⟩ : ∃ f, len % 15 = f + 1 := ⟨len % 15 - 1, by omega⟩
    have hmask : (if f + 1 ≥ 16 then 1 else 1 <<< (16 - (f + 1))) = 2 ^ (16 - (f + 1)) := by
      rw [if_neg (by omega), Nat.one_shiftLeft]
    have hov := decode_word_int_overflow ((hi <<< 8) ||| lo) (f + 1) xts2.out xts2.out_done
      (16 - (f + 1)) (by rw [hod2, h3]; omega) (by rw [hod2, h3]; omega) (by omega)
      (by rw [hobuf2, hol]; omega)
    rw [hf] at ho hshift
    unfold xpcu_do_ext_transfer_int
    simp only [hin2, hout2, hf]
    simp only [ho, hshift, Option.bind_eq_bind, Option.some_bind, if_true]
    unfold decode_words_int
    simp only [rd, List.getElem?_cons_zero, List.getElem?_cons_succ, Option.bind_eq_bind,
      Option.some_bind, hmask, hov, Nat.succ_ne_zero, if_false, Option.none_bind]
  unfold io_scan_int
  simp only [heq, hfor, Option.bind_eq_bind, Option.some_bind]
  rw [if_pos (by omega), hjoin, hdo, Option.none_bind]

/-! ## Lemmas: the session loop -/

theorem sread_some (st st1 : Session) (n : Nat) (d : List Nat)
    (h : sread st n = (some d, st1)) :
    n ≤ st.input.length ∧ d = st.input.take n ∧ st1.input = st.input.drop n ∧
      st1.output = st.output ∧ st1.jtag_state = st.jtag_state ∧ st1.usb = st.usb ∧
      st1.trail = st.trail ∧ st1.scans = st.scans := by
  unfold sread at h
  split at h
  · simp at h
  · simp only [Prod.mk.injEq, Option.some.injEq] at h
    obtain ⟨h1, rfl⟩ := h
    exact ⟨by omega, h1.symm, rfl, rfl, rfl, rfl, rfl, rfl⟩

theorem trace_state_spec (buffer : List Nat) :
    ∀ (n i : Nat) (st st1 : Session), trace_state buffer n i st = some st1 →
      st1.input = st.input ∧ st1.output = st.output ∧ st1.usb = st.usb ∧
      st1.scans = st.scans ∧ (∃ l, st1.trail = st.trail ++ l) ∧
      (st.jtag_state ∈ st.trail → st1.jtag_state ∈ st1.trail) := by
  intro n
  induction n with
  | zero =>
    intro i st st1 h
    simp only [trace_state, Option.some.injEq] at h
    subst h
    exact ⟨rfl, rfl, rfl, rfl, ⟨[], by simp⟩, id⟩
  | succ n ih =>
    intro i st st1 h
    unfold trace_state at h
    cases hb : rd buffer (i / 8) with
    | none => simp [hb] at h
    | some byte =>
      simp only [hb, Option.bind_eq_bind, Option.some_bind] at h
      obtain ⟨h1, h2, h3, h4, ⟨l, h5⟩, h6⟩ := ih _ _ _ h
      simp only at h5
      exact ⟨h1, h2, h3, h4, ⟨_ :: l, by rw [h5, List.append_assoc]; rfl⟩,
        fun _ => h6 (by simp)⟩

theorem shift_data_spec (env : Env) (st st1 : Session) (buffer : List Nat) (len nr : Int)
    (r : Option (Option (List Nat))) (h : shift_data env st buffer len nr = (r, st1)) :
    st1.input = st.input ∧ st1.output = st.output ∧ (∃ l, st1.trail = st.trail ++ l) ∧
      (st.jtag_state ∈ st.trail → st1.jtag_state ∈ st1.trail) := by
  unfold shift_data at h
  simp only at h
  split at h
  · simp only [Prod.mk.injEq] at h
    obtain ⟨_, rfl⟩ := h
    exact ⟨rfl, rfl, ⟨[], by simp⟩, id⟩
  · cases ht : trace_state buffer len.toNat 0 st with
    | none =>
      simp only [ht, Prod.mk.injEq] at h
      obtain ⟨_, rfl⟩ := h
      exact ⟨rfl, rfl, ⟨[], by simp⟩, id⟩
    | some sa =>
      obtain ⟨h1, h2, _, _, h5, h6⟩ := trace_state_spec _ _ _ _ _ ht
      simp only [ht] at h
      cases hs : io_scan env.cable sa.usb env.stack (List.drop nr.toNat buffer) buffer
          (List.replicate nr.toNat 0) (len % 4294967296).toNat with
      | none =>
        simp only [hs, Prod.mk.injEq] at h
        obtain ⟨_, rfl⟩ := h
        exact ⟨h1, h2, h5, h6⟩
      | some v =>
        obtain ⟨rv, tdo, usb⟩ := v
        simp only [hs] at h
        split at h <;>
        · simp only [Prod.mk.injEq] at h
          obtain ⟨_, rfl⟩ := h
          exact ⟨h1, h2, h5, h6⟩

theorem handle_shift_next (env : Env) (seen seen1 : Bool) (st st1 : Session)
    (h : handle_shift env seen st = Flow.next seen1 st1) (hinv : GateInv seen st) :
    GateInv seen1 st1 ∧ st1.input.length + 4 ≤ st.input.length := by
  unfold handle_shift at h
  rcases hr1 : sread st 4 with ⟨_ | lenb, sa⟩
  · simp [hr1] at h
  · obtain ⟨hl1, -, ha1, -, ha3, -, ha5, -⟩ := sread_some _ _ _ _ hr1
    simp only [hr1] at h
    split at h
    · simp at h
    · rcases hr2 : sread sa (((wrap_int (int_of_le lenb + 7)).tdiv 8 * 2).toNat)
        with ⟨_ | buffer, sb⟩
      · simp [hr2] at h
      · obtain ⟨_, -, hb1, -, hb3, -, hb5, -⟩ := sread_some _ _ _ _ hr2
        simp only [hr2] at h
        rcases hsd : shift_data env sb buffer (int_of_le lenb)
            ((wrap_int (int_of_le lenb + 7)).tdiv 8) with ⟨_ | _ | result, sc⟩
        · simp [hsd] at h
        · simp [hsd] at h
        · obtain ⟨hi, _, ⟨l, htr⟩, hmem⟩ := shift_data_spec _ _ _ _ _ _ _ hsd
          simp only [hsd, sock_write] at h
          split at h
          · simp at h
          · rename_i heq
            simp only [Flow.next.injEq] at h
            simp only [Prod.mk.injEq] at heq
            obtain ⟨hs, rfl⟩ := h
            obtain ⟨_, rfl⟩ := heq
            simp only
            have hst : sb.jtag_state = st.jtag_state := by rw [hb3, ha3]
            have htrail : sb.trail = st.trail := by rw [hb5, ha5]
            refine ⟨⟨?_, hmem (by rw [hst, htrail]; exact hinv.2)⟩, ?_⟩
            · intro hseen
              rw [htr, htrail]
              apply List.mem_append_left
              rw [← hs] at hseen
              simp only [Bool.and_eq_true, Bool.or_eq_true, decide_eq_true_eq] at hseen
              rcases hseen.1.1 with h1 | h1
              · exact hinv.1 h1
              · rw [← h1, hst]; exact hinv.2
            · rw [hi, hb1, ha1]
              simp only [List.length_drop]
              omega

theorem handle_shift_stop (env : Env) (seen : Bool) (st st1 : Session) (r : Outcome)
    (h : handle_shift env seen st = Flow.stop r st1) : ∀ via, r ≠ Outcome.returned 0 via := by
  intro via hr
  subst hr
  unfold handle_shift at h
  rcases hr1 : sread st 4 with ⟨_ | lenb, sa⟩
  · simp [hr1] at h
  · simp only [hr1] at h
    split at h
    · simp at h
    · rcases hr2 : sread sa (((wrap_int (int_of_le lenb + 7)).tdiv 8 * 2).toNat)
        with ⟨_ | buffer, sb⟩
      · simp [hr2] at h
      · simp only [hr2] at h
        rcases hsd : shift_data env sb buffer (int_of_le lenb)
            ((wrap_int (int_of_le lenb + 7)).tdiv 8) with ⟨_ | _ | result, sc⟩
        · simp [hsd] at h
        · simp [hsd] at h
        · simp only [hsd] at h
          split at h <;> simp at h

theorem handle_shift_input (env : Env) (seen seen1 : Bool) (st st1 : Session)
    (h : handle_shift env seen st = Flow.next seen1 st1) :
    st1.input.length + 4 ≤ st.input.length := by
  unfold handle_shift at h
  rcases hr1 : sread st 4 with ⟨_ | lenb, sa⟩
  · simp [hr1] at h
  · obtain ⟨hl1, -, ha1, -⟩ := sread_some _ _ _ _ hr1
    simp only [hr1] at h
    split at h
    · simp at h
    · rcases hr2 : sread sa (((wrap_int (int_of_le lenb + 7)).tdiv 8 * 2).toNat)
        with ⟨_ | buffer, sb⟩
      · simp [hr2] at h
      · obtain ⟨_, -, hb1, -⟩ := sread_some _ _ _ _ hr2
        simp only [hr2] at h
        rcases hsd : shift_data env sb buffer (int_of_le lenb)
            ((wrap_int (int_of_le lenb + 7)).tdiv 8) with ⟨_ | _ | result, sc⟩
        · simp [hsd] at h
        · simp [hsd] at h
        · obtain ⟨hi, -⟩ := shift_data_spec _ _ _ _ _ _ _ hsd
          simp only [hsd, sock_write] at h
          split at h
          · simp at h
          · rename_i heq
            simp only [Flow.next.injEq] at h
            simp only [Prod.mk.injEq] at heq
            obtain ⟨-, rfl⟩ := h
            obtain ⟨-, rfl⟩ := heq
            simp only
            rw [hi, hb1, ha1]
            simp only [List.length_drop]
            omega

theorem handle_frame_input (env : Env) (seen seen1 : Bool) (st st1 : Session)
    (h : handle_frame env seen st = Flow.next seen1 st1) :
    st1.input.length < st.input.length := by
  unfold handle_frame at h
  rcases hr1 : sread st 2 with ⟨_ | cmd, sa⟩
  · simp [hr1] at h
  · obtain ⟨_, -, ha1, -⟩ := sread_some _ _ _ _ hr1
    simp only [hr1] at h
    split at h
    · split at h
      · simp at h
      · split at h <;> simp at h
    · split at h
      · split at h
        · simp at h
        · split at h <;> simp at h
      · split at h
        · rcases hr2 : sread sa 4 with ⟨_ | cmd4, sb⟩
          · simp [hr2] at h
          · obtain ⟨_, -, hb1, -⟩ := sread_some _ _ _ _ hr2
            simp only [hr2] at h
            have hl := handle_shift_input env seen seen1 sb st1 h
            rw [hb1, ha1] at hl
            simp only [List.length_drop] at hl
            omega
        · simp at h

theorem handle_shift_ne_fuel (env : Env) (seen : Bool) (st st1 : Session) (r : Outcome)
    (h : handle_shift env seen st = Flow.stop r st1) : r ≠ Outcome.out_of_fuel := by
  intro hr
  subst hr
  unfold handle_shift at h
  rcases hr1 : sread st 4 with ⟨_ | lenb, sa⟩
  · simp [hr1] at h
  · simp only [hr1] at h
    split at h
    · simp at h
    · rcases hr2 : sread sa (((wrap_int (int_of_le lenb + 7)).tdiv 8 * 2).toNat)
        with ⟨_ | buffer, sb⟩
      · simp [hr2] at h
      · simp only [hr2] at h
        rcases hsd : shift_data env sb buffer (int_of_le lenb)
            ((wrap_int (int_of_le lenb + 7)).tdiv 8) with ⟨_ | _ | result, sc⟩
        · simp [hsd] at h
        · simp [hsd] at h
        · simp only [hsd] at h
          split at h <;> simp at h

theorem handle_frame_next (env : Env) (seen seen1 : Bool) (st st1 : Session)
    (h : handle_frame env seen st = Flow.next seen1 st1) (hinv : GateInv seen st) :
    GateInv seen1 st1 ∧ st1.input.length < st.input.length := by
  unfold handle_frame at h
  rcases hr1 : sread st 2 with ⟨_ | cmd, sa⟩
  · simp [hr1] at h
  · obtain ⟨_, -, ha1, -, ha3, -, ha5, -⟩ := sread_some _ _ _ _ hr1
    simp only [hr1] at h
    split at h
    · split at h
      · simp at h
      · split at h <;> simp at h
    · split at h
      · split at h
        · simp at h
        · split at h <;> simp at h
      · split at h
        · rcases hr2 : sread sa 4 with ⟨_ | cmd4, sb⟩
          · simp [hr2] at h
          · obtain ⟨_, -, hb1, -, hb3, -, hb5, -⟩ := sread_some _ _ _ _ hr2
            simp only [hr2] at h
            have hinvb : GateInv seen sb :=
              ⟨fun hs => by rw [hb5, ha5]; exact hinv.1 hs, by rw [hb3, hb5, ha3, ha5]; exact hinv.2⟩
            obtain ⟨hg, hl⟩ := handle_shift_next env seen seen1 sb st1 h hinvb
            refine ⟨hg, ?_⟩
            rw [hb1, ha1] at hl
            simp only [List.length_drop] at hl
            omega
        · simp at h

theorem handle_frame_stop (env : Env) (seen : Bool) (st st1 : Session) (r : Outcome)
    (h : handle_frame env seen st = Flow.stop r st1) :
    r ≠ Outcome.out_of_fuel ∧ ∀ via, r = Outcome.returned 0 via →
      via = Exit.getinfo_done ∨ via = Exit.settck_done ∨ via = Exit.invalid_cmd := by
  unfold handle_frame at h
  rcases hr1 : sread st 2 with ⟨_ | cmd, sa⟩
  · simp only [hr1, Flow.stop.injEq] at h
    obtain ⟨rfl, -⟩ := h
    exact ⟨by simp, by simp⟩
  · simp only [hr1] at h
    split at h
    · split at h
      · simp only [Flow.stop.injEq] at h
        obtain ⟨rfl, -⟩ := h
        exact ⟨by simp, by simp⟩
      · split at h <;>
        · simp only [Flow.stop.injEq] at h
          obtain ⟨rfl, -⟩ := h
          exact ⟨by simp, by simp⟩
    · split at h
      · split at h
        · simp only [Flow.stop.injEq] at h
          obtain ⟨rfl, -⟩ := h
          exact ⟨by simp, by simp⟩
        · split at h <;>
          · simp only [Flow.stop.injEq] at h
            obtain ⟨rfl, -⟩ := h
            exact ⟨by simp, by simp⟩
      · split at h
        · rcases hr2 : sread sa 4 with ⟨_ | cmd4, sb⟩
          · simp only [hr2, Flow.stop.injEq] at h
            obtain ⟨rfl, -⟩ := h
            exact ⟨by simp, by simp⟩
          · simp only [hr2] at h
            exact ⟨handle_shift_ne_fuel env seen sb st1 r h,
              fun via hv => absurd hv (handle_shift_stop env seen sb st1 r h via)⟩
        · simp only [Flow.stop.injEq] at h
          obtain ⟨rfl, -⟩ := h
          exact ⟨by simp, by simp⟩

theorem handle_data_loop_gate (env : Env) :
    ∀ (fuel : Nat) (seen : Bool) (st st1 : Session), GateInv seen st →
      handle_data_loop env fuel seen st = (Outcome.returned 0 Exit.gate, st1) →
      st1.jtag_state = jtag_state_t.run_test_idle ∧
        jtag_state_t.test_logic_reset ∈ st1.trail := by
  intro fuel
  induction fuel with
  | zero => intro seen st st1 _ h; simp [handle_data_loop] at h
  | succ fuel ih =>
    intro seen st st1 hinv h
    unfold handle_data_loop at h
    cases hf : handle_frame env seen st with
    | stop r sa =>
      simp only [hf, Prod.mk.injEq] at h
      obtain ⟨rfl, -⟩ := h
      have := (handle_frame_stop env seen st sa _ hf).2 Exit.gate rfl
      simp at this
    | next seen1 sa =>
      obtain ⟨hg, -⟩ := handle_frame_next env seen seen1 st sa hf hinv
      simp only [hf] at h
      split at h
      · rename_i hc
        simp only [Prod.mk.injEq, true_and] at h
        subst h
        simp only [Bool.and_eq_true, decide_eq_true_eq] at hc
        exact ⟨hc.2, hg.1 hc.1⟩
      · exact ih seen1 sa st1 hg h

theorem handle_data_loop_via (env : Env) :
    ∀ (fuel : Nat) (seen : Bool) (st st1 : Session) (via : Exit),
      handle_data_loop env fuel seen st = (Outcome.returned 0 via, st1) →
      via = Exit.gate ∨ via = Exit.getinfo_done ∨ via = Exit.settck_done ∨
        via = Exit.invalid_cmd := by
  intro fuel
  induction fuel with
  | zero => intro seen st st1 via h; simp [handle_data_loop] at h
  | succ fuel ih =>
    intro seen st st1 via h
    unfold handle_data_loop at h
    cases hf : handle_frame env seen st with
    | stop r sa =>
      simp only [hf, Prod.mk.injEq] at h
      obtain ⟨rfl, -⟩ := h
      exact Or.inr ((handle_frame_stop env seen st sa _ hf).2 via rfl)
    | next seen1 sa =>
      simp only [hf] at h
      split at h
      · simp only [Prod.mk.injEq, Outcome.returned.injEq, true_and] at h
        exact Or.inl h.1.symm
      · exact ih seen1 sa st1 via h

theorem handle_data_loop_fuel (env : Env) :
    ∀ (fuel : Nat) (seen : Bool) (st : Session), st.input.length < fuel →
      (handle_data_loop env fuel seen st).1 ≠ Outcome.out_of_fuel := by
  intro fuel
  induction fuel with
  | zero => intro seen st h; omega
  | succ fuel ih =>
    intro seen st hlt
    unfold handle_data_loop
    cases hf : handle_frame env seen st with
    | stop r sa => exact (handle_frame_stop env seen st sa r hf).1
    | next seen1 sa =>
      simp only
      split
      · simp
      · apply ih
        have := handle_frame_input env seen seen1 st sa hf
        omega

theorem sread_cons2 (a b : Nat) (rest : List Nat) (o : List (List Nat)) (js : jtag_state_t)
    (usb : List UsbEvent) (trail : List jtag_state_t) (scans : List Nat) :
    sread ⟨a :: b :: rest, o, js, usb, trail, scans⟩ 2
      = (some [a, b], ⟨rest, o, js, usb, trail, scans⟩) := by
  simp [sread]

theorem sread_cons4 (a b c d : Nat) (rest : List Nat) (o : List (List Nat))
    (js : jtag_state_t) (usb : List UsbEvent) (trail : List jtag_state_t) (scans : List Nat) :
    sread ⟨a :: b :: c :: d :: rest, o, js, usb, trail, scans⟩ 4
      = (some [a, b, c, d], ⟨rest, o, js, usb, trail, scans⟩) := by
  simp [sread]

theorem handle_data_loop_succ (env : Env) (fuel : Nat) (seen : Bool) (st : Session) :
    handle_data_loop env (fuel + 1) seen st
      = match handle_frame env seen st with
        | Flow.stop r st1 => (r, st1)
        | Flow.next seen1 st1 =>
          if seen1 && decide (st1.jtag_state = jtag_state_t.run_test_idle) then
            (Outcome.returned 0 Exit.gate, st1)
          else handle_data_loop env fuel seen1 st1 := rfl

theorem io_scan_zero (c : Cable) (log : List UsbEvent) (stack tdi tms tdo : List Nat) :
    io_scan c log stack tdi tms tdo 0 = some (0, tdo, log) := by
  simp [io_scan, io_scan_for]

theorem sread_zero (st : Session) : sread st 0 = (some [], st) := by
  simp [sread]

theorem handle_frame_zero_shift (env : Env) (seen : Bool) (st : Session)
    (x1 x2 x3 x4 : Nat) (rest : List Nat)
    (hin : st.input = 115 :: 104 :: x1 :: x2 :: x3 :: x4 :: 0 :: 0 :: 0 :: 0 :: rest) :
    handle_frame env seen st
      = (if env.write_ok st.output.length
          then Flow.next
            ((seen || decide (st.jtag_state = jtag_state_t.test_logic_reset)) &&
              decide (st.jtag_state ≠ jtag_state_t.capture_dr) &&
              decide (st.jtag_state ≠ jtag_state_t.capture_ir))
            { st with input := rest, output := st.output ++ [[]], scans := st.scans ++ [0] }
          else Flow.stop (Outcome.returned 1 Exit.write_failed)
            { st with input := rest, output := st.output ++ [[]],
                      scans := st.scans ++ [0] }) := by
  obtain ⟨input, output, js, usb, trail, scans⟩ := st
  simp only at hin
  subst hin
  have hl0 : int_of_le [0, 0, 0, 0] = 0 := by decide
  have hn0 : (wrap_int (0 + 7)).tdiv 8 = 0 := by decide
  have hsz : ¬ ((0 : Int) * 2 % 18446744073709551616 > 4096) := by decide
  have h2 : ((0 : Int) * 2).toNat = 0 := by decide
  have h0 : (0 : Int).toNat = 0 := by decide
  have hu : ((0 : Int) % 4294967296).toNat = 0 := by decide
  unfold handle_frame
  rw [sread_cons2]
  simp only [show ¬ ([115, 104] = [103, 101]) by decide,
    show ¬ ([115, 104] = [115, 101]) by decide, if_false, if_true, sread_cons4]
  unfold handle_shift
  rw [sread_cons4]
  simp only [hl0, hn0, if_neg hsz, h2, sread_zero]
  unfold shift_data
  simp only [h0, hu, trace_state, io_scan_zero]
  cases hw : env.write_ok output.length <;> simp [sock_write, hw]

/-- C8: from each of the sixteen TAP states, five steps with TMS = 1 end in
TEST-LOGIC-RESET, and TEST-LOGIC-RESET is a fixed point of a step with TMS = 1, so any
longer run of ones stays there. -/
theorem jtag_step_five_ones_reset :
    (∀ s : jtag_state_t,
      jtag_step (jtag_step (jtag_step (jtag_step (jtag_step s true) true) true) true) true
        = jtag_state_t.test_logic_reset) ∧
    jtag_step jtag_state_t.test_logic_reset true = jtag_state_t.test_logic_reset ∧
    (∀ s : jtag_state_t, s ∈ all_states) ∧ all_states.length = 16 := by
  refine ⟨?_, rfl, ?_, rfl⟩
  · intro s; cases s <;> rfl
  · intro s; cases s <;> simp [all_states]

/-- C6, the code at the failing input: the first call of `handle_data` receives a 4-bit
shift frame (TMS bits 0, 1, 0, 0: TEST-LOGIC-RESET to SHIFT-DR) followed by `getinfo:`.
After the reply to `getinfo:` the loop is left by `break` and the call returns 0 while
`jtag_state` is SHIFT-DR, not RUN-TEST/IDLE; the comment above `handle_data` (xvcd.c:94)
allows switching between clients only in RUN-TEST/IDLE after TEST-LOGIC-RESET. -/
theorem handle_data_getinfo_returns_in_shift_dr :
    handle_data echo_env (first_session
        [115, 104, 105, 102, 116, 58, 4, 0, 0, 0, 0x02, 0x05,
         103, 101, 116, 105, 110, 102, 111, 58])
      = (Outcome.returned 0 Exit.getinfo_done,
          { input := [], output := [[0x05], xvcInfo],
            jtag_state := jtag_state_t.shift_dr,
            usb := [UsbEvent.control 0x40 0xB0 0xA6 5 true,
              UsbEvent.bulk_out 0x02 [0x25, 0xFF, 0x00, 0x00] true,
              UsbEvent.bulk_in 0x86 2 (some [0x00, 0x50])],
            trail := [jtag_state_t.test_logic_reset, jtag_state_t.run_test_idle,
              jtag_state_t.select_dr_scan, jtag_state_t.capture_dr, jtag_state_t.shift_dr],
            scans := [4] }) ∧
    jtag_state_t.shift_dr ≠ jtag_state_t.run_test_idle := by
  decide!

/-- The part of the session gate that the code implements: `handle_data` always ends (the
fuel of the model never runs out).  When it returns 0 because its loop condition
`!(seen_tlr && jtag_state == run_test_idle)` became false, `jtag_state` is RUN-TEST/IDLE
and the tracker was in TEST-LOGIC-RESET at some point of that call.  A return of 0 is made
through the loop condition or after the reply to `getinfo:`, after the reply to `settck:`,
or for an unknown command; these three do not consult the tracker. -/
theorem handle_data_gate (env : Env) (st : Session) :
    (handle_data env st).1 ≠ Outcome.out_of_fuel ∧
    (∀ st1, handle_data env st = (Outcome.returned 0 Exit.gate, st1) →
      st1.jtag_state = jtag_state_t.run_test_idle ∧
        jtag_state_t.test_logic_reset ∈ st1.trail) ∧
    (∀ via st1, handle_data env st = (Outcome.returned 0 via, st1) →
      via = Exit.gate ∨ via = Exit.getinfo_done ∨ via = Exit.settck_done ∨
        via = Exit.invalid_cmd) := by
  refine ⟨?_, ?_, ?_⟩
  · exact handle_data_loop_fuel env _ false _ (by simp)
  · intro st1 h
    exact handle_data_loop_gate env _ false _ st1 ⟨by simp, by simp⟩ h
  · intro via st1 h
    exact handle_data_loop_via env _ false _ st1 via h

/-- An instance of `handle_data_gate`: five TMS ones (TEST-LOGIC-RESET) in a first frame
and a TMS zero (RUN-TEST/IDLE) in a second one; the call returns 0 through the loop
condition. -/
theorem handle_data_gate_witness :
    handle_data echo_env (first_session
        [115, 104, 105, 102, 116, 58, 5, 0, 0, 0, 0x1F, 0x00,
         115, 104, 105, 102, 116, 58, 1, 0, 0, 0, 0x00, 0x00])
      = (Outcome.returned 0 Exit.gate,
          (handle_data echo_env (first_session
            [115, 104, 105, 102, 116, 58, 5, 0, 0, 0, 0x1F, 0x00,
             115, 104, 105, 102, 116, 58, 1, 0, 0, 0, 0x00, 0x00])).2) ∧
    (handle_data echo_env (first_session
        [115, 104, 105, 102, 116, 58, 5, 0, 0, 0, 0x1F, 0x00,
         115, 104, 105, 102, 116, 58, 1, 0, 0, 0, 0x00, 0x00])).2.jtag_state
      = jtag_state_t.run_test_idle ∧
    jtag_state_t.test_logic_reset ∈ (handle_data echo_env (first_session
        [115, 104, 105, 102, 116, 58, 5, 0, 0, 0, 0x1F, 0x00,
         115, 104, 105, 102, 116, 58, 1, 0, 0, 0, 0x00, 0x00])).2.trail :=
  have h : handle_data echo_env (first_session
        [115, 104, 105, 102, 116, 58, 5, 0, 0, 0, 0x1F, 0x00,
         115, 104, 105, 102, 116, 58, 1, 0, 0, 0, 0x00, 0x00])
      = (Outcome.returned 0 Exit.gate,
          (handle_data echo_env (first_session
            [115, 104, 105, 102, 116, 58, 5, 0, 0, 0, 0x1F, 0x00,
             115, 104, 105, 102, 116, 58, 1, 0, 0, 0, 0x00, 0x00])).2) := by decide!
  ⟨h, (handle_data_gate echo_env _).2.1 _ h⟩

/-- C7, the code at the failing input: one 6-bit shift frame with TMS bits 0, 1, 0, 1, 1, 0
received in TEST-LOGIC-RESET.  `seen_tlr` is set at the start of the frame and examined
again only after it; the tracker passes through CAPTURE-DR in the middle of the frame and
ends in RUN-TEST/IDLE, so the loop exits and `handle_data` returns 0 although the tracker
has been in CAPTURE-DR since its last visit to TEST-LOGIC-RESET. -/
theorem handle_data_gate_after_capture :
    handle_data echo_env (first_session
        [115, 104, 105, 102, 116, 58, 6, 0, 0, 0, 0x1A, 0x3F])
      = (Outcome.returned 0 Exit.gate,
          { input := [], output := [[0x3F]],
            jtag_state := jtag_state_t.run_test_idle,
            usb := [UsbEvent.control 0x40 0xB0 0xA6 6 true,
              UsbEvent.bulk_out 0x02 [0xAF, 0xFF, 0x13, 0x33] true,
              UsbEvent.bulk_in 0x86 2 (some [0x00, 0xFC])],
            trail := [jtag_state_t.test_logic_reset, jtag_state_t.run_test_idle,
              jtag_state_t.select_dr_scan, jtag_state_t.capture_dr, jtag_state_t.exit1_dr,
              jtag_state_t.update_dr, jtag_state_t.run_test_idle],
            scans := [6] }) ∧
    no_capture_since_reset [jtag_state_t.test_logic_reset, jtag_state_t.run_test_idle,
      jtag_state_t.select_dr_scan, jtag_state_t.capture_dr, jtag_state_t.exit1_dr,
      jtag_state_t.update_dr, jtag_state_t.run_test_idle] = false := by
  decide!

/-- C9, the code at the failing input: a shift frame whose length bytes are FF FF FF FF,
that is N = 4294967295 and `2 * ceil(N / 8) > 4096`.  Read into the `int len` the length
is -1, `nr_bytes` is 0 and the size check passes; no payload is read, the tracker is not
stepped, and `io_scan` is called with `len = 4294967295`, where its first read lies outside
the bytes received.  The same happens down to N = 4294967282 (`len = -14`); N = 4294967281
(`len = -15`) and N = 16385 are rejected by the size check. -/
theorem handle_data_accepts_length_ffffffff :
    handle_data echo_env (first_session
        [115, 104, 105, 102, 116, 58, 0xFF, 0xFF, 0xFF, 0xFF])
      = (Outcome.fault,
          { input := [], output := [], jtag_state := jtag_state_t.test_logic_reset,
            usb := [], trail := [jtag_state_t.test_logic_reset],
            scans := [4294967295] }) ∧
    int_of_le [0xFF, 0xFF, 0xFF, 0xFF] = -1 ∧
    2 * ((4294967295 + 7) / 8) > 4096 ∧
    handle_data echo_env (first_session
        [115, 104, 105, 102, 116, 58, 0xF2, 0xFF, 0xFF, 0xFF])
      = (Outcome.fault,
          { input := [], output := [], jtag_state := jtag_state_t.test_logic_reset,
            usb := [], trail := [jtag_state_t.test_logic_reset],
            scans := [4294967282] }) ∧
    handle_data echo_env (first_session
        [115, 104, 105, 102, 116, 58, 0xF1, 0xFF, 0xFF, 0xFF])
      = (Outcome.returned 1 Exit.size_exceeded,
          { input := [], output := [], jtag_state := jtag_state_t.test_logic_reset,
            usb := [], trail := [jtag_state_t.test_logic_reset], scans := [] }) ∧
    handle_data echo_env (first_session
        [115, 104, 105, 102, 116, 58, 0x01, 0x40, 0x00, 0x00])
      = (Outcome.returned 1 Exit.size_exceeded,
          { input := [], output := [], jtag_state := jtag_state_t.test_logic_reset,
            usb := [], trail := [jtag_state_t.test_logic_reset], scans := [] }) := by
  decide!

/-- C10 (bogus-movement filter): a shift frame that arrives while `jtag_state` is EXIT1-IR
with `len = 5` and first TMS byte 0x17, or while it is EXIT1-DR with `len = 4` and first
TMS byte 0x0B (any TDI byte), is answered by one `write` of the single byte 0x00; the USB
history, the list of `io_scan` calls, `jtag_state` and `seen_tlr` are unchanged.  If the
`write` succeeds the loop goes on with the next frame (the gate cannot open in an EXIT1
state), otherwise `handle_data` returns 1. -/
theorem handle_frame_bogus_movement (env : Env) (seen : Bool) (st : Session)
    (x1 x2 x3 x4 tdi : Nat) (rest : List Nat) (fuel : Nat)
    (h : (st.jtag_state = jtag_state_t.exit1_ir ∧
          st.input = 115 :: 104 :: x1 :: x2 :: x3 :: x4 :: 5 :: 0 :: 0 :: 0 :: 0x17 :: tdi :: rest) ∨
        (st.jtag_state = jtag_state_t.exit1_dr ∧
          st.input = 115 :: 104 :: x1 :: x2 :: x3 :: x4 :: 4 :: 0 :: 0 :: 0 :: 0x0B :: tdi :: rest)) :
    handle_frame env seen st
      = (if env.write_ok st.output.length
          then Flow.next seen { st with input := rest, output := st.output ++ [[0x00]] }
          else Flow.stop (Outcome.returned 1 Exit.write_failed)
            { st with input := rest, output := st.output ++ [[0x00]] }) ∧
    handle_data_loop env (fuel + 1) seen st
      = (if env.write_ok st.output.length
          then handle_data_loop env fuel seen
            { st with input := rest, output := st.output ++ [[0x00]] }
          else (Outcome.returned 1 Exit.write_failed,
            { st with input := rest, output := st.output ++ [[0x00]] })) := by
  obtain ⟨input, output, js, usb, trail, scans⟩ := st
  have hl5 : int_of_le [5, 0, 0, 0] = 5 := by decide
  have hl4 : int_of_le [4, 0, 0, 0] = 4 := by decide
  have hn5 : (wrap_int (5 + 7)).tdiv 8 = 1 := by decide
  have hn4 : (wrap_int (4 + 7)).tdiv 8 = 1 := by decide
  have hsz : ¬ ((1 : Int) * 2 % 18446744073709551616 > 4096) := by decide
  have h2 : ((1 : Int) * 2).toNat = 2 := by decide
  have h1 : (1 : Int).toNat = 1 := by decide
  have hframe : handle_frame env seen ⟨input, output, js, usb, trail, scans⟩
      = (if env.write_ok output.length
          then Flow.next seen ⟨rest, output ++ [[0x00]], js, usb, trail, scans⟩
          else Flow.stop (Outcome.returned 1 Exit.write_failed)
            ⟨rest, output ++ [[0x00]], js, usb, trail, scans⟩) := by
    rcases h with ⟨h1, h2⟩ | ⟨h1, h2⟩
    · simp only at h1 h2
      subst h1 h2
      unfold handle_frame
      rw [sread_cons2]
      simp only [show ¬ ([115, 104] = [103, 101]) by decide,
        show ¬ ([115, 104] = [115, 101]) by decide, if_false, if_true, sread_cons4]
      unfold handle_shift
      rw [sread_cons4]
      simp only [hl5, hn5, if_neg hsz, h2, sread_cons2]
      unfold shift_data
      cases hw : env.write_ok output.length <;> simp [sock_write, hw]
    · simp only at h1 h2
      subst h1 h2
      unfold handle_frame
      rw [sread_cons2]
      simp only [show ¬ ([115, 104] = [103, 101]) by decide,
        show ¬ ([115, 104] = [115, 101]) by decide, if_false, if_true, sread_cons4]
      unfold handle_shift
      rw [sread_cons4]
      simp only [hl4, hn4, if_neg hsz, h2, sread_cons2]
      unfold shift_data
      cases hw : env.write_ok output.length <;> simp [sock_write, hw]
  refine ⟨hframe, ?_⟩
  rw [handle_data_loop_succ, hframe]
  cases hw : env.write_ok output.length
  · simp
  · have hjs : js ≠ jtag_state_t.run_test_idle := by
      rcases h with ⟨h1, -⟩ | ⟨h1, -⟩ <;> simp only at h1 <;> subst h1 <;> decide
    simp [hjs]

/-- C10, instance: the frame of scenario S5 (EXIT1-IR, `len = 5`, TMS byte 0x17) as the
only input of a session in which every `write` succeeds. -/
theorem handle_frame_bogus_movement_witness :
    ((⟨[115, 104, 105, 102, 116, 58, 5, 0, 0, 0, 0x17, 0x00], [],
        jtag_state_t.exit1_ir, [], [jtag_state_t.exit1_ir], []⟩ : Session).jtag_state
          = jtag_state_t.exit1_ir) ∧
    handle_frame echo_env false
        ⟨[115, 104, 105, 102, 116, 58, 5, 0, 0, 0, 0x17, 0x00], [], jtag_state_t.exit1_ir, [],
          [jtag_state_t.exit1_ir], []⟩
      = Flow.next false ⟨[], [[0x00]], jtag_state_t.exit1_ir, [], [jtag_state_t.exit1_ir], []⟩ :=
  ⟨rfl, (handle_frame_bogus_movement echo_env false
    ⟨[115, 104, 105, 102, 116, 58, 5, 0, 0, 0, 0x17, 0x00], [], jtag_state_t.exit1_ir, [],
      [jtag_state_t.exit1_ir], []⟩ 105 102 116 58 0x00 [] 0 (Or.inl ⟨rfl, rfl⟩)).1⟩

/-- C14, the code at a shift frame with `len = 0` followed by a shift frame of one bit
(TMS 0, TDI 1): the first frame is not rejected.  It is answered by a `write` of 0 bytes and
counted as a call of `io_scan` with `len = 0`, the loop goes on, the second frame is
shifted and answered, and `handle_data` returns 0 through the gate, the result on which
`main` keeps the connection open. -/
theorem handle_data_zero_length_shift_processed :
    handle_data echo_env (first_session
        [115, 104, 105, 102, 116, 58, 0, 0, 0, 0,
         115, 104, 105, 102, 116, 58, 1, 0, 0, 0, 0, 1])
      = (Outcome.returned 0 Exit.gate,
          { input := [], output := [[], [1]], jtag_state := jtag_state_t.run_test_idle,
            usb := [UsbEvent.control 0x40 0xB0 0xA6 1 true,
              UsbEvent.bulk_out 0x02 [1, 0x11] true,
              UsbEvent.bulk_in 0x86 2 (some [0, 0x80])],
            trail := [jtag_state_t.test_logic_reset, jtag_state_t.run_test_idle],
            scans := [0, 1] }) ∧
    int_of_le [0, 0, 0, 0] = 0 ∧ main_closes 0 = false := by
  decide!

/-- C14 (amended): a shift frame with `len = 0` is not rejected.  No vector byte is read,
the tracker keeps its state, `io_scan` is called with `len = 0` and makes no USB transfer,
and a `write` of 0 bytes is made as the reply.  If that `write` fails `handle_data` returns 1;
otherwise the round ends at the loop condition with `seen_tlr` updated from the state at the
start of the frame, and the loop goes on with the next frame unless the gate holds. -/
theorem handle_frame_zero_length_shift (env : Env) (seen : Bool) (st : Session)
    (x1 x2 x3 x4 : Nat) (rest : List Nat) (fuel : Nat)
    (hin : st.input = 115 :: 104 :: x1 :: x2 :: x3 :: x4 :: 0 :: 0 :: 0 :: 0 :: rest) :
    handle_frame env seen st
      = (if env.write_ok st.output.length
          then Flow.next
            ((seen || decide (st.jtag_state = jtag_state_t.test_logic_reset)) &&
              decide (st.jtag_state ≠ jtag_state_t.capture_dr) &&
              decide (st.jtag_state ≠ jtag_state_t.capture_ir))
            { st with input := rest, output := st.output ++ [[]], scans := st.scans ++ [0] }
          else Flow.stop (Outcome.returned 1 Exit.write_failed)
            { st with input := rest, output := st.output ++ [[]],
                      scans := st.scans ++ [0] }) ∧
    handle_data_loop env (fuel + 1) seen st
      = (if env.write_ok st.output.length
          then
            if ((seen || decide (st.jtag_state = jtag_state_t.test_logic_reset)) &&
                decide (st.jtag_state ≠ jtag_state_t.capture_dr) &&
                decide (st.jtag_state ≠ jtag_state_t.capture_ir)) &&
              decide (st.jtag_state = jtag_state_t.run_test_idle)
            then (Outcome.returned 0 Exit.gate,
              { st with input := rest, output := st.output ++ [[]],
                        scans := st.scans ++ [0] })
            else handle_data_loop env fuel
              ((seen || decide (st.jtag_state = jtag_state_t.test_logic_reset)) &&
                decide (st.jtag_state ≠ jtag_state_t.capture_dr) &&
                decide (st.jtag_state ≠ jtag_state_t.capture_ir))
              { st with input := rest, output := st.output ++ [[]],
                        scans := st.scans ++ [0] }
          else (Outcome.returned 1 Exit.write_failed,
            { st with input := rest, output := st.output ++ [[]],
                      scans := st.scans ++ [0] })) := by
  have hframe := handle_frame_zero_shift env seen st x1 x2 x3 x4 rest hin
  refine ⟨hframe, ?_⟩
  rw [handle_data_loop_succ, hframe]
  cases hw : env.write_ok st.output.length <;> simp

/-- C14, instance: the frame "shift:" with length bytes 00 00 00 00 as the first frame of a
session in which every `write` succeeds; the round ends at the loop condition with
`seen_tlr` set, an empty reply written and the rest of the input unread. -/
theorem handle_frame_zero_length_shift_witness :
    (first_session [115, 104, 105, 102, 116, 58, 0, 0, 0, 0, 9]).input
      = 115 :: 104 :: 105 :: 102 :: 116 :: 58 :: 0 :: 0 :: 0 :: 0 :: [9] ∧
    handle_frame echo_env false (first_session [115, 104, 105, 102, 116, 58, 0, 0, 0, 0, 9])
      = Flow.next true
          ⟨[9], [[]], jtag_state_t.test_logic_reset, [], [], [0]⟩ :=
  ⟨rfl, (handle_frame_zero_length_shift echo_env false
    (first_session [115, 104, 105, 102, 116, 58, 0, 0, 0, 0, 9]) 105 102 116 58 [9] 0 rfl).1⟩

/-- C15, the code at the failing input: `io_scan` with `len = 2147483649` (`INT_MAX + 2`),
`tdi`, `tms` and `tdo` of `ceil(len / 8) = 268435457` bytes and a cable on which every
transfer succeeds.  With `out_done` in 32 bits the call ends in an access outside its
buffers: the last burst (nine bits) stores the samples 2147483640 to 2147483647 in byte
268435455 of `tdo`, `out_done++` then takes the `int out_done` from `INT_MAX` to a negative
value, and the store of sample 2147483648 indexes `out` with the negative `out_done >> 3`.
The buffers are large enough: with an unbounded `out_done` the same call returns 0. -/
theorem io_scan_out_done_overflow :
    io_scan_int echo_cable [] (List.replicate 8 0) (List.replicate 268435457 0)
        (List.replicate 268435457 0) (List.replicate 268435457 0) 2147483649 = none ∧
    (∃ tdo1 evs, io_scan echo_cable [] (List.replicate 8 0) (List.replicate 268435457 0)
        (List.replicate 268435457 0) (List.replicate 268435457 0) 2147483649
      = some (0, tdo1, evs)) ∧
    (2147483649 + 7) / 8 = 268435457 ∧ 2147483649 < 4294967296 := by
  have h8 : (List.replicate 8 0).length = 8 := List.length_replicate 8 0
  have hl : (2147483649 + 7) / 8 ≤ (List.replicate 268435457 0).length := by
    rw [List.length_replicate]
  refine ⟨io_scan_int_overflow echo_cable echo_cable_ok [] _ _ _ _ 2147483649 h8 hl hl hl
    (by decide) (by decide), ?_, by decide, by decide⟩
  obtain ⟨tdo1, h, _⟩ := io_scan_ok echo_cable echo_cable_ok [] (List.replicate 8 0)
    (List.replicate 268435457 0) (List.replicate 268435457 0) (List.replicate 268435457 0)
    2147483649 h8 hl hl hl
  exact ⟨tdo1, _, h⟩

/-- Where the array accesses of the shift engine are in bounds: every access of the model
is checked, so a result other than `none` says that no access was out of bounds.  For
every `len` up to `INT_MAX`, every cable and every content of the buffers, `io_scan` with
`out_done` in 32 bits, on a staging buffer of exactly 8 bytes, `tdi` and `tms` of at least
`ceil(len / 8)` bytes and a `tdo` buffer of at least `ceil(len / 8)` bytes (exactly that
many included), returns a result; the `tdo` buffer keeps its size and its bytes from index
`ceil(len / 8)` on are untouched; every burst announced has between 1 and 15 slots.  With
`len = 0`, whatever the buffers, no transfer is made and `tdo` is returned as it was. -/
theorem io_scan_accesses_in_bounds (c : Cable) (log0 : List UsbEvent)
    (stack tdi tms tdo0 : List Nat) (len : Nat) (hlen : len ≤ 2147483647)
    (hstack : stack.length = 8)
    (htdi : (len + 7) / 8 ≤ tdi.length) (htms : (len + 7) / 8 ≤ tms.length)
    (htdo : (len + 7) / 8 ≤ tdo0.length) :
    (∃ r tdo1 evs, io_scan_int c log0 stack tdi tms tdo0 len = some (r, tdo1, log0 ++ evs) ∧
        tdo1.length = tdo0.length ∧ (∀ k, (len + 7) / 8 ≤ k → tdo1[k]? = tdo0[k]?) ∧
        ∀ n ∈ a6_slot_counts evs, 1 ≤ n ∧ n ≤ 15) ∧
    (∀ stack1 tdi1 tms1 tdo1 : List Nat,
        io_scan_int c log0 stack1 tdi1 tms1 tdo1 0 = some (0, tdo1, log0)) := by
  refine ⟨?_, fun stack1 tdi1 tms1 tdo1 => by
    rw [io_scan_int_eq _ _ _ _ _ _ _ (by decide)]
    exact io_scan_zero c log0 stack1 tdi1 tms1 tdo1⟩
  rw [io_scan_int_eq _ _ _ _ _ _ _ (by omega)]
  obtain ⟨r, tdo1, bursts, hio, hl, hun, _⟩ :=
    io_scan_run c log0 stack tdi tms tdo0 len hstack htdi htms htdo
  obtain ⟨r2, tdo2, evs, k, hio2, _, _, hk, hcnt, _⟩ :=
    io_scan_any c log0 stack tdi tms tdo0 len hstack htdi htms htdo
  refine ⟨r, tdo1, bursts.flatten, hio, hl, hun, ?_⟩
  rw [hio] at hio2
  simp only [Option.some.injEq, Prod.mk.injEq, List.append_cancel_left_eq] at hio2
  rw [hio2.2.2, hcnt]
  intro n hn
  obtain ⟨b, hb, rfl⟩ := List.mem_map.mp hn
  have hbk : b < burst_count len := by
    have := List.mem_range.mp hb
    omega
  have hf := burst_slots_facts len b hbk
  exact ⟨hf.1, hf.2.1⟩

/-- An instance of `io_scan_accesses_in_bounds`: a scan of 20 bits over the echoing cable
with buffers of exactly `ceil(20 / 8) = 3` bytes and an 8-byte staging buffer. -/
theorem io_scan_accesses_in_bounds_witness :
    (List.replicate 8 0).length = 8 ∧ (20 + 7) / 8 ≤ [0x0F, 0x12, 0x34].length ∧
    (20 + 7) / 8 ≤ [0x00, 0x55, 0x66].length ∧ (20 + 7) / 8 ≤ [0xFF, 0xFF, 0xFF].length ∧
    (∃ r tdo1 evs, io_scan_int echo_cable [] (List.replicate 8 0) [0x0F, 0x12, 0x34]
          [0x00, 0x55, 0x66] [0xFF, 0xFF, 0xFF] 20 = some (r, tdo1, [] ++ evs) ∧
        tdo1.length = [0xFF, 0xFF, 0xFF].length ∧
        (∀ k, (20 + 7) / 8 ≤ k → tdo1[k]? = [0xFF, 0xFF, 0xFF][k]?) ∧
        ∀ n ∈ a6_slot_counts evs, 1 ≤ n ∧ n ≤ 15) ∧
    (∀ stack1 tdi1 tms1 tdo1 : List Nat,
        io_scan_int echo_cable [] stack1 tdi1 tms1 tdo1 0 = some (0, tdo1, [])) :=
  ⟨by decide, by decide, by decide, by decide,
    io_scan_accesses_in_bounds echo_cable [] (List.replicate 8 0) [0x0F, 0x12, 0x34]
      [0x00, 0x55, 0x66] [0xFF, 0xFF, 0xFF] 20 (by decide) (by decide) (by decide)
      (by decide) (by decide)⟩

end XpcuXvcd
